import Mathlib

/-!
# gcloc_m: verification development

A shallow embedding of the orchestration code of `gcloc_m` (the Go sources
`gcloc_m.go`, `pkg/gogit/gogit.go` and `pkg/devops/getazure/getazure.go`) and
theorems about it.

Conventions of the embedding:

* a Go function returning `(v, error)` becomes a Lean function returning a
  tuple whose last component is `Option Error` (`none` is Go's `nil` error), so
  that the value returned next to an error is visible;
* a call into a library or a remote service is a field of an environment
  record, returning `Except Error _` (the value is absent when the call fails);
* a Go slice is a `List` (the `nil` slice is `[]`), `len` is `List.length`;
* a loop that Go writes as `for { ... }` takes a fuel argument and returns
  `none` when the fuel runs out;
* spinners and progress output are left out unless a definition says otherwise.
-/

namespace Gcloc

/-- Go `error` values, identified by their message. -/
abbrev Error := String

/-! ## Go strings

A Go string is modelled by a Lean `String`; the functions of package `strings`
that the program uses are given on the list of characters. The separators and
affixes the program passes are ASCII, for which the byte-wise functions of Go
and the character-wise functions below agree on valid UTF-8. -/

namespace Strings

/-- The function `strings.HasSuffix`. -/
def HasSuffix (s suffix : String) : Bool :=
  suffix.data.isSuffixOf s.data

/-- The function `strings.TrimSuffix`. -/
def TrimSuffix (s suffix : String) : String :=
  if HasSuffix s suffix then String.mk (s.data.take (s.data.length - suffix.data.length)) else s

/-- The function `strings.HasPrefix`. -/
def HasPrefix (s pre : String) : Bool :=
  pre.data.isPrefixOf s.data

/-- The function `strings.TrimPrefix`. -/
def TrimPrefix (s pre : String) : String :=
  if HasPrefix s pre then String.mk (s.data.drop pre.data.length) else s

/-- Splitting a list of characters at every occurrence of `sep`: one more
piece than there are separators. -/
def splitChars (sep : Char) : List Char → List (List Char)
  | [] => [[]]
  | c :: cs =>
    if c = sep then [] :: splitChars sep cs
    else
      match splitChars sep cs with
      | [] => [[c]]
      | piece :: pieces => (c :: piece) :: pieces

/-- The function `strings.Split(s, sep)` for a separator of one character. -/
def Split (s : String) (sep : Char) : List String :=
  (splitChars sep s.data).map String.mk

end Strings

/-- Go's `int` on a 64-bit platform: the representative of `z` modulo `2^64`
in the range `[-2^63, 2^63)`. -/
def wrapInt (z : Int) : Int :=
  (z + 9223372036854775808) % 18446744073709551616 - 9223372036854775808

/-! ## Package `gogit` (`pkg/gogit/gogit.go`) -/

namespace Gogit

/-- The operating system, the random source and the git library as `Getrepos`
sees them. `Lstat` and `Readlink` describe the file system as it is after the
call of `PlainClone`. -/
structure Env where
  /-- The result of `rand.Read(randBytes)`: the byte stored at each index of the buffer,
  and the error. -/
  randRead : (Nat → Nat) × Option Error
  /-- The value of `os.TempDir()`. -/
  TempDir : String
  /-- The function `filepath.Join` on two elements. -/
  Join : String → String → String
  /-- The error of `git.PlainClone(dst, false, opts)` for `dst`, the URL and the branch. -/
  PlainClone : String → String → String → Option Error
  /-- The result of `os.Lstat(path)`, reduced to `info.Mode()&os.ModeSymlink != 0`. -/
  Lstat : String → Except Error Bool
  /-- The result of `os.Readlink(path)`. -/
  Readlink : String → Except Error String

/-- The constant `hextable` of `encoding/hex`. -/
def hextable : List Char := "0123456789abcdef".toList

/-- The function `hex.EncodeToString`: each byte `v` gives `hextable[v>>4]` and
`hextable[v&0x0f]`. -/
def EncodeToString (src : List Nat) : String :=
  String.mk (src.flatMap fun v => [hextable.getD (v / 16) '0', hextable.getD (v % 16) '0'])

/-- The function `randomSuffix`: 16 random bytes, hex-encoded. -/
def randomSuffix (env : Env) : String × Option Error :=
  let randBytes := (List.range 16).map fun i => env.randRead.1 i % 256
  match env.randRead.2 with
  | some err => ("", some err)
  | none => (EncodeToString randBytes, none)

/-- The function `isSymLink`. -/
def isSymLink (env : Env) (path : String) : Bool × Option Error :=
  match env.Lstat path with
  | .error err => (false, some err)
  | .ok symlinkBit => (symlinkBit, none)

/-- What a call of `Getrepos` yields: the two returned values and the lines it
printed on standard output. -/
structure GetreposResult where
  path : String
  err : Option Error
  printed : List String
  deriving DecidableEq, Repr

/-- The function `Getrepos`. The error of `git.PlainClone` is printed and the
function goes on to `isSymLink`. -/
def Getrepos (env : Env) (src branch : String) : GetreposResult :=
  match randomSuffix env with
  | (_, some err) => ⟨"", some err, []⟩
  | (suffix, none) =>
    let dst := env.Join env.TempDir ("gcloc-extract-" ++ suffix)
    -- lines 29-31 test `err` again: it is still the nil error of `randomSuffix`
    let printed :=
      match env.PlainClone dst src branch with
      | some err =>
        ["\n-- Stack: gogit.Getrepos Git Clone -- : " ++ err,
         "\n-- Stack: gogit.Getrepos Git Clone -Branch - : " ++ branch]
      | none => []
    match isSymLink env dst with
    | (_, some err) => ⟨"", some err, printed⟩
    | (symLink, none) =>
      if symLink then
        match env.Readlink dst with
        | .error err => ⟨"", some err, printed⟩
        | .ok origin => ⟨origin, none, printed⟩
      else ⟨dst, none, printed⟩

/-- What `git.PlainClone` leaves behind when it fails: it removes the directory
it created, so that the destination, which is new at every call, does not exist
after the call and `os.Lstat` fails on it. -/
def RemovesFailedClone (env : Env) : Prop :=
  ∀ dst src branch : String, env.PlainClone dst src branch ≠ none →
    ∃ err, env.Lstat dst = .error err

/-- An environment in which the clone fails (the remote refuses the
credentials) and leaves no destination behind. -/
def cloneFailsEnv : Env where
  randRead := (fun i => 16 * i + 10, none)
  TempDir := "/tmp"
  Join := fun a b => a ++ "/" ++ b
  PlainClone := fun _ _ _ => some "authentication required"
  Lstat := fun path => .error ("lstat " ++ path ++ ": no such file or directory")
  Readlink := fun _ => .error "readlink: invalid argument"

/-- An environment in which everything succeeds and the destination is a
symbolic link to `/data/repo`. -/
def symlinkEnv : Env where
  randRead := (fun i => 17 * i, none)
  TempDir := "/tmp"
  Join := fun a b => a ++ "/" ++ b
  PlainClone := fun _ _ _ => none
  Lstat := fun _ => .ok true
  Readlink := fun _ => .ok "/data/repo"

end Gogit

/-! ## Package `main` (`gcloc_m.go`) -/

namespace Main

open Strings

/-- The type `LanguageRes`. -/
structure LanguageRes where
  Language : String
  Files : Int
  Lines : Int
  BlankLines : Int
  Comments : Int
  CodeLines : Int
  deriving DecidableEq, Repr

/-- The type `Result`. -/
structure Result where
  TotalFiles : Int
  TotalLines : Int
  TotalBlankLines : Int
  TotalComments : Int
  TotalCodeLines : Int
  Results : List LanguageRes
  deriving DecidableEq, Repr

/-- One field of a Go struct declaration: its name, its type as written, and
the value of the `json` key of its tag (`none` when the field has no tag). -/
structure StructField where
  Name : String
  GoType : String
  Tag : Option String
  deriving DecidableEq, Repr

/-- The declaration of `Report` (lines 52-59). -/
def Report_fields : List StructField :=
  [⟨"TotalFiles", "int", some ",omitempty"⟩,
   ⟨"TotalLines", "int", none⟩,
   ⟨"TotalBlankLines", "int", none⟩,
   ⟨"TotalComments", "int", none⟩,
   ⟨"TotalCodeLines", "int", none⟩,
   ⟨"Results", "interface", none⟩]

/-- The declaration of `Result` (lines 61-68). -/
def Result_fields : List StructField :=
  [⟨"TotalFiles", "int", some "TotalFiles"⟩,
   ⟨"TotalLines", "int", some "TotalLines"⟩,
   ⟨"TotalBlankLines", "int", some "TotalBlankLines"⟩,
   ⟨"TotalComments", "int", some "TotalComments"⟩,
   ⟨"TotalCodeLines", "int", some "TotalCodeLines"⟩,
   ⟨"Results", "[]LanguageRes", some "Results"⟩]

/-- The declaration of `LanguageRes` (lines 70-77). -/
def LanguageRes_fields : List StructField :=
  [⟨"Language", "string", some "Language"⟩,
   ⟨"Files", "int", some "Files"⟩,
   ⟨"Lines", "int", some "Lines"⟩,
   ⟨"BlankLines", "int", some "BlankLines"⟩,
   ⟨"Comments", "int", some "Comments"⟩,
   ⟨"CodeLines", "int", some "CodeLines"⟩]

/-- The key under which `encoding/json` reads and writes a field: the tag up
to its first comma, the name of the field when that is empty or there is no tag,
and no key at all for the tag `-`. -/
def jsonKey (f : StructField) : Option String :=
  match f.Tag with
  | none => some f.Name
  | some tag =>
    if tag = "-" then none
    else
      match Split tag ',' with
      | [] => some f.Name
      | name :: _ => if name = "" then some f.Name else some name

/-- The keys of a struct, in the order of its fields. -/
def jsonKeys (fields : List StructField) : List String :=
  fields.filterMap jsonKey

/-- An entry of the results directory, as `os.ReadDir` lists it. -/
structure DirEntry where
  Name : String
  IsDir : Bool
  deriving DecidableEq, Repr

/-- The file system and the JSON decoder as the aggregation loop of `main` sees
them. -/
structure ReportEnv where
  /-- The function `filepath.Join` on two elements. -/
  Join : String → String → String
  /-- The result of `os.ReadFile(filePath)`. -/
  ReadFile : String → Except Error String
  /-- The result of `json.Unmarshal(jsonData, &result)` for a fresh `Result`. -/
  Unmarshal : String → Except Error Result

/-- The variables of `main` that the aggregation loop updates. -/
structure Summary where
  totalCodeLinesSum : Int
  maxTotalCodeLines : Int
  maxProject : String
  maxRepo : String
  deriving DecidableEq, Repr

/-- The body of the loop over `files` in `main` (lines 567-597). The result is
`none` when the body panics (an index out of range in `parts`). -/
def main_loopBody (env : ReportEnv) (DestinationResult : String) (st : Summary)
    (file : DirEntry) : Option Summary :=
  if !file.IsDir && HasSuffix file.Name ".json" then
    let filePath := env.Join DestinationResult file.Name
    match env.ReadFile filePath with
    | .error _ => some st
    | .ok jsonData =>
      match env.Unmarshal jsonData with
      | .error _ => some st
      | .ok result =>
        let totalCodeLinesSum := wrapInt (st.totalCodeLinesSum + result.TotalCodeLines)
        if result.TotalCodeLines > st.maxTotalCodeLines then
          let parts := Split (TrimSuffix file.Name ".json") '_'
          match parts[1]?, parts[2]? with
          | some p1, some p2 =>
            some ⟨totalCodeLinesSum, result.TotalCodeLines, p1, p2⟩
          | _, _ => none
        else some ⟨totalCodeLinesSum, st.maxTotalCodeLines, st.maxProject, st.maxRepo⟩
  else some st

/-- The loop over `files` in `main`, from a state of the variables. -/
def main_loop (env : ReportEnv) (DestinationResult : String) :
    List DirEntry → Summary → Option Summary
  | [], st => some st
  | file :: files, st =>
    match main_loopBody env DestinationResult st file with
    | none => none
    | some st1 => main_loop env DestinationResult files st1

/-- The aggregation of `main` (lines 564-597): the loop run from the zero
values of the variables. -/
def main_aggregate (env : ReportEnv) (DestinationResult : String) (files : List DirEntry) :
    Option Summary :=
  main_loop env DestinationResult files ⟨0, 0, "", ""⟩

/-- The report that an entry of the results directory contributes: the entry
is not a directory, its name ends in `.json`, it can be read and it parses as a
`Result`. -/
def reportOf (env : ReportEnv) (DestinationResult : String) (file : DirEntry) :
    Option Result :=
  if !file.IsDir && HasSuffix file.Name ".json" then
    match env.ReadFile (env.Join DestinationResult file.Name) with
    | .error _ => none
    | .ok jsonData =>
      match env.Unmarshal jsonData with
      | .error _ => none
      | .ok result => some result
  else none

/-- A results directory `/r`: two reports, a file that does not parse, a file
that cannot be read, a text file and a sub-directory. -/
def sampleReports : ReportEnv where
  Join := fun a b => a ++ "/" ++ b
  ReadFile := fun path =>
    if path = "/r/Result_P_alpha_main.json" then .ok "alpha"
    else if path = "/r/Result_P_beta_dev.json" then .ok "beta"
    else if path = "/r/broken.json" then .ok "broken"
    else .error "open: permission denied"
  Unmarshal := fun jsonData =>
    if jsonData = "alpha" then .ok ⟨3, 120, 10, 10, 100, []⟩
    else if jsonData = "beta" then .ok ⟨1, 50, 5, 5, 40, []⟩
    else .error "invalid character"

/-- The entries of the directory of `sampleReports`. -/
def sampleFiles : List DirEntry :=
  [⟨"GlobalReport.txt", false⟩, ⟨"config.json", true⟩, ⟨"Result_P_alpha_main.json", false⟩,
   ⟨"broken.json", false⟩, ⟨"locked.json", false⟩, ⟨"Result_P_beta_dev.json", false⟩]

/-- The fields of `gcloc.Params` that differ between the calls of this
program; the other fields are the constants written in the source. -/
structure Params where
  Path : String
  OutputName : String
  OutputPath : String
  Branch : String
  deriving DecidableEq, Repr

/-- The field of `gcloc.GCloc` that the program reads. -/
structure GCloc where
  Repopath : String
  deriving DecidableEq, Repr

/-- The fields of `getbibucketdc.ProjectBranch` that the program reads. -/
structure ProjectBranch where
  ProjectKey : String
  RepoSlug : String
  MainBranch : String
  deriving DecidableEq, Repr

/-- The interface `Repository1`, as the values of its three methods. -/
structure Repository1 where
  GetID : Int
  GetName : String
  GetPath : String
  deriving DecidableEq, Repr

/-- The field of a branch of `getgitlab` that the program reads. -/
structure Branch where
  Name : String
  deriving DecidableEq, Repr

/-- The collaborators of the analysis functions. -/
structure AnalyseEnv where
  /-- The result of `gcloc.NewGCloc(params, constants.Languages)`. -/
  NewGCloc : Params → Except Error GCloc
  /-- The error of `os.RemoveAll(path)`. -/
  RemoveAll : String → Option Error
  /-- The result of `getgitlab.GetRepositoryBranches(AccessToken, name, id)`. -/
  GetRepositoryBranches : String → String → Int → Except Error (List Branch)

/-- What an analysis function does that can be seen from outside. -/
inductive Event where
  /-- Text written on standard output. -/
  | print (text : String)
  /-- A call of `gc.Run()` on the scanner built from `params`. -/
  | run (params : Params)
  /-- A call of `os.RemoveAll(path)`. -/
  | removeAll (path : String)
  deriving DecidableEq, Repr

/-- How an analysis function ends: it returns its counter, or the process
exits through `os.Exit`. -/
inductive Ending where
  | returned (cpt : Nat)
  | osExit (code : Nat)
  deriving DecidableEq, Repr

/-- The error of a fallible call, Go's second result. -/
def errOf {α : Type} : Except Error α → Option Error
  | .error err => some err
  | .ok _ => none

/-- The text that `%v` prints for an `error`. -/
def showErr : Option Error → String
  | some err => err
  | none => "<nil>"

/-- The loop of `AnalyseReposListB` over `repolist`, from a value of `cpt` and
the events so far. -/
def AnalyseReposListB_loop (env : AnalyseEnv)
    (DestinationResult user AccessToken Protocol trimmedURL : String) :
    List ProjectBranch → Nat → List Event → Ending × List Event
  | [], cpt, log => (.returned cpt, log)
  | project :: rest, cpt, log =>
    let pathToScan := Protocol ++ "://" ++ user ++ ":" ++ AccessToken ++ "@" ++ trimmedURL ++
      "scm/" ++ project.ProjectKey ++ "/" ++ project.RepoSlug ++ ".git"
    let outputFileName :=
      "Result_" ++ project.ProjectKey ++ "_" ++ project.RepoSlug ++ "_" ++ project.MainBranch
    let params : Params := ⟨pathToScan, outputFileName, DestinationResult, project.MainBranch⟩
    let made := env.NewGCloc params
    let err := errOf made
    match made with
    | .error e => (.osExit 1, log ++ [.print ("\nError Analyse Repositories:  " ++ e ++ "\n")])
    | .ok gc =>
      let log := log ++ [.run params]
      let cpt := cpt + 1
      let err1 := env.RemoveAll gc.Repopath
      let log := log ++ [.removeAll gc.Repopath]
      if err.isSome then
        (.returned cpt,
          log ++ [.print ("❌ Error deleting Repository Directory: " ++ showErr err1 ++ "\n")])
      else
        AnalyseReposListB_loop env DestinationResult user AccessToken Protocol trimmedURL rest cpt
          (log ++ [.print ("\t✅ The repository <" ++ project.RepoSlug ++ "> has been analyzed\n")])

/-- The function `AnalyseReposListB`. -/
def AnalyseReposListB (env : AnalyseEnv)
    (DestinationResult user AccessToken Protocol URL _DevOps : String)
    (repolist : List ProjectBranch) : Ending × List Event :=
  let trimmedURL := TrimPrefix URL "http://"
  AnalyseReposListB_loop env DestinationResult user AccessToken Protocol trimmedURL repolist 0
    [.print "\n🔎 Analysis of Repos ...\n"]

/-- The inner loop of `AnalyseReposList` over the branches of `repo`. The
first component is `none` when the loop runs to its end, and the ending of the
function when the loop leaves it. -/
def AnalyseReposList_branches (env : AnalyseEnv)
    (DestinationResult Users AccessToken DevOps : String) (repo : Repository1) :
    List Branch → Nat → List Event → Option Ending × Nat × List Event
  | [], cpt, log => (none, cpt, log)
  | branch :: rest, cpt, log =>
    let log := log ++ [.print ("    - " ++ branch.Name ++ "\n")]
    let pathBranches := "?ref=" ++ branch.Name
    let pathToScan := "https://" ++ Users ++ ":" ++ AccessToken ++ "@" ++ DevOps ++ ".com/" ++
      repo.GetPath ++ pathBranches
    let log := log ++ [.print ("Scan PATH : " ++ pathToScan ++ "\n")]
    let outputFileName := "Result_" ++ repo.GetName
    let params : Params := ⟨pathToScan, outputFileName, DestinationResult, ""⟩
    let made := env.NewGCloc params
    let err := errOf made
    match made with
    | .error e =>
      (some (.osExit 1), cpt, log ++ [.print ("\nError Analyse Repositories:  " ++ e ++ "\n")])
    | .ok gc =>
      let log := log ++ [.run params]
      let cpt := cpt + 1
      let err1 := env.RemoveAll gc.Repopath
      let log := log ++ [.removeAll gc.Repopath]
      if err.isSome then
        (some (.returned cpt), cpt,
          log ++ [.print ("Error deleting Repository Directory: " ++ showErr err1 ++ "\n")])
      else
        AnalyseReposList_branches env DestinationResult Users AccessToken DevOps repo rest cpt log

/-- The outer loop of `AnalyseReposList` over `repolist`. -/
def AnalyseReposList_loop (env : AnalyseEnv)
    (DestinationResult Users AccessToken DevOps : String) :
    List Repository1 → Nat → List Event → Ending × List Event
  | [], cpt, log => (.returned cpt, log)
  | repo :: rest, cpt, log =>
    let log := log ++ [.print ("\nAnalyse Repository : " ++ repo.GetName ++ "\n")]
    match env.GetRepositoryBranches AccessToken repo.GetName repo.GetID with
    | .error e =>
      (.osExit 1, log ++ [.print ("\nError Analyse Repository Branches:  " ++ e ++ "\n")])
    | .ok branches =>
      match AnalyseReposList_branches env DestinationResult Users AccessToken DevOps repo
          branches cpt log with
      | (some ending, _, log) => (ending, log)
      | (none, cpt, log) =>
        AnalyseReposList_loop env DestinationResult Users AccessToken DevOps rest cpt log

/-- The function `AnalyseReposList`. -/
def AnalyseReposList (env : AnalyseEnv)
    (DestinationResult Users AccessToken DevOps _Organization : String)
    (repolist : List Repository1) : Ending × List Event :=
  AnalyseReposList_loop env DestinationResult Users AccessToken DevOps repolist 0 []

/-- The function `AnalyseRepo`. -/
def AnalyseRepo (env : AnalyseEnv)
    (DestinationResult Users AccessToken DevOps Organization reponame : String) :
    Ending × List Event :=
  let cpt := 0
  let pathToScan := "https://" ++ Users ++ ":" ++ AccessToken ++ "@" ++ DevOps ++ ".com/" ++
    Organization ++ "/" ++ reponame
  let outputFileName := "Result_" ++ reponame
  let params : Params := ⟨pathToScan, outputFileName, DestinationResult, ""⟩
  let made := env.NewGCloc params
  let err := errOf made
  match made with
  | .error e => (.osExit 1, [.print ("\nError Analyse Repositories:  " ++ e ++ "\n")])
  | .ok gc =>
    let log := [Event.run params]
    let cpt := cpt + 1
    let err1 := env.RemoveAll gc.Repopath
    let log := log ++ [.removeAll gc.Repopath]
    if err.isSome then
      (.returned cpt,
        log ++ [.print ("❌ Error deleting Repository Directory: " ++ showErr err1 ++ "\n")])
    else (.returned cpt, log)

/-- Collaborators for which every scan succeeds and the removal of the
directory of the repository `alpha` fails. -/
def removeFailsEnv : AnalyseEnv where
  NewGCloc := fun params => .ok ⟨"/tmp/" ++ params.OutputName⟩
  RemoveAll := fun path =>
    if HasSuffix path "alpha" || HasSuffix path "alpha_main" then
      some "unlinkat: permission denied"
    else none
  GetRepositoryBranches := fun _ _ _ => .ok [⟨"main"⟩]

/-- Collaborators for which every scan and every removal succeeds, and every
repository has the two branches `main` and `dev`. -/
def twoBranchesEnv : AnalyseEnv where
  NewGCloc := fun params => .ok ⟨"/tmp/" ++ params.OutputName⟩
  RemoveAll := fun _ => none
  GetRepositoryBranches := fun _ _ _ => .ok [⟨"main"⟩, ⟨"dev"⟩]

/-- A results directory `/r` that holds the report written for the project
`MY_PROJ`, the repository `app` and the branch `main`. -/
def underscoreReports : ReportEnv where
  Join := fun a b => a ++ "/" ++ b
  ReadFile := fun path =>
    if path = "/r/Result_MY_PROJ_app_main.json" then .ok "report"
    else .error "open: no such file or directory"
  Unmarshal := fun jsonData =>
    if jsonData = "report" then .ok ⟨3, 120, 10, 10, 100, []⟩
    else .error "invalid character"

/-- The file system as `getFileNameIfExists` sees it. -/
structure StatEnv where
  /-- The error of `os.Stat(filePath)`. -/
  Stat : String → Option Error
  /-- The function `os.IsNotExist`. -/
  IsNotExist : Error → Bool

/-- The function `getFileNameIfExists`: the returned name, and the text it
prints. -/
def getFileNameIfExists (env : StatEnv) (filePath : String) : String × List String :=
  match env.Stat filePath with
  | some err =>
    if env.IsNotExist err then ("0", [])
    else ("0", ["❌ Error check file exclusion: " ++ err ++ "\n"])
  | none => (filePath, [])

/-- A file system in which `.exclude` exists, `.locked` cannot be examined
and no other file exists. -/
def sampleStat : StatEnv where
  Stat := fun filePath =>
    if filePath = ".exclude" then none
    else if filePath = ".locked" then some "stat .locked: permission denied"
    else some "no such file or directory"
  IsNotExist := fun err => err = "no such file or directory"

end Main

/-! ## Package `getazure` (`pkg/devops/getazure/getazure.go`) -/

namespace Getazure

open Strings

/-- A Go `map[string]bool`, as the list of its entries. -/
abbrev BoolMap := List (String × Bool)

/-- The assignment `m[key] = value`. -/
def BoolMap.set (m : BoolMap) (key : String) (value : Bool) : BoolMap :=
  (key, value) :: m.filter fun entry => entry.1 != key

/-- The second result of `_, ok := m[key]`. -/
def BoolMap.has (m : BoolMap) (key : String) : Bool :=
  m.any fun entry => entry.1 == key

/-- The type `ExclusionList`. -/
structure ExclusionList where
  Projects : BoolMap
  Repos : BoolMap
  deriving DecidableEq, Repr

/-- The function `dropCR` of `bufio`. -/
def dropCR (data : List Char) : List Char :=
  if data.getLast? = some '\r' then data.dropLast else data

/-- The tokens that a `bufio.Scanner` with the split function `ScanLines`
yields on `content`: every newline ends a token, a last line without newline is
a token when it is not empty, and one carriage return is removed from the end of
each token. -/
def ScanLines (content : String) : List String :=
  let pieces := splitChars '\n' content.data
  let pieces := if pieces.getLast? = some [] then pieces.dropLast else pieces
  pieces.map fun piece => String.mk (dropCR piece)

/-- The files as `loadExclusionList` sees them: for a file name, the error of
`os.Open`, or else the bytes that the scanner turns into tokens together with
the error it stops with, the value of `scanner.Err()` (a failed read, a line
longer than the buffer of the scanner). -/
structure Files where
  Open : String → Except Error (String × Option Error)

/-- The body of the scanner loop of `loadExclusionList` (lines 102-110). -/
def loadExclusionList_line (exclusionList : ExclusionList) (line : String) : ExclusionList :=
  let parts := Split line '/'
  if parts.length = 1 then
    { exclusionList with Projects := exclusionList.Projects.set (parts.headD "") true }
  else if parts.length = 2 then
    { exclusionList with Repos := exclusionList.Repos.set line true }
  else exclusionList

/-- The function `loadExclusionList`. -/
def loadExclusionList (fs : Files) (filename : String) : Option ExclusionList × Option Error :=
  match fs.Open filename with
  | .error err => (none, some err)
  | .ok (content, scanErr) =>
    let exclusionList := (ScanLines content).foldl loadExclusionList_line ⟨[], []⟩
    match scanErr with
    | some err => (none, some err)
    | none => (some exclusionList, none)

/-- The function `loadExclusionFileOrCreateNew`. -/
def loadExclusionFileOrCreateNew (fs : Files) (exclusionFile : String) :
    Option ExclusionList × Option Error :=
  if exclusionFile = "0" then (some ⟨[], []⟩, none)
  else loadExclusionList fs exclusionFile

/-- The function `isRepoExcluded`. -/
def isRepoExcluded (exclusionList : ExclusionList) (projectKey repoKey : String) : Bool :=
  exclusionList.Repos.has (projectKey ++ "/" ++ repoKey)

/-- The function `isProjectExcluded`. -/
def isProjectExcluded (exclusionList : ExclusionList) (projectKey : String) : Bool :=
  exclusionList.Projects.has projectKey

/-- The fields of `core.TeamProjectReference` that the program reads. The
service gives every project an identifier and a name. -/
structure TeamProjectReference where
  Id : String
  Name : String
  deriving DecidableEq, Repr

/-- The type `core.GetProjectsResponseValue`: one page of projects. -/
structure GetProjectsResponseValue where
  Value : List TeamProjectReference
  ContinuationToken : String
  deriving DecidableEq, Repr

/-- The method of `core.Client` that `getAllProjects` calls: the page that
the service returns for a continuation token. -/
structure CoreClient where
  GetProjects : String → Except Error GetProjectsResponseValue

/-- The loop over `responseValue.Value` in `getAllProjects` (lines 170-178). -/
def getAllProjects_page (exclusionList : ExclusionList) :
    List TeamProjectReference → List TeamProjectReference → Nat →
      List TeamProjectReference × Nat
  | [], allProjects, excludedCount => (allProjects, excludedCount)
  | project :: rest, allProjects, excludedCount =>
    if isProjectExcluded exclusionList project.Name then
      getAllProjects_page exclusionList rest allProjects (excludedCount + 1)
    else
      getAllProjects_page exclusionList rest (allProjects ++ [project]) excludedCount

/-- The loop `for` of `getAllProjects` (lines 161-187), from a state of its
variables; `none` when the fuel runs out. -/
def getAllProjects_loop (coreClient : CoreClient) (exclusionList : ExclusionList) :
    Nat → String → List TeamProjectReference → Nat →
      Option (List TeamProjectReference × Nat × Option Error)
  | 0, _, _, _ => none
  | fuel + 1, continuationToken, allProjects, excludedCount =>
    match coreClient.GetProjects continuationToken with
    | .error err => some ([], 0, some err)
    | .ok responseValue =>
      match getAllProjects_page exclusionList responseValue.Value allProjects excludedCount with
      | (allProjects, excludedCount) =>
        if responseValue.ContinuationToken = "" then some (allProjects, excludedCount, none)
        else
          getAllProjects_loop coreClient exclusionList fuel responseValue.ContinuationToken
            allProjects excludedCount

/-- The function `getAllProjects`. -/
def getAllProjects (fuel : Nat) (coreClient : CoreClient) (exclusionList : ExclusionList) :
    Option (List TeamProjectReference × Nat × Option Error) :=
  getAllProjects_loop coreClient exclusionList fuel "" [] 0

/-- The service answers the request for `token` with the first of `pages` and
the request for the token of each page with the page after it; every page but
the last carries a non-empty token and the last carries the empty one. -/
def ServesPages (coreClient : CoreClient) : String → List GetProjectsResponseValue → Prop
  | _, [] => False
  | token, [page] => coreClient.GetProjects token = .ok page ∧ page.ContinuationToken = ""
  | token, page :: next :: rest =>
    coreClient.GetProjects token = .ok page ∧ page.ContinuationToken ≠ "" ∧
      ServesPages coreClient page.ContinuationToken (next :: rest)

/-- The service answers the request for `token` with the first of `pages` and
the request for the token of each page with the page after it, every page
carries a non-empty token, and the request for the token of the last page fails
with `err`. -/
def FailsAfterPages (coreClient : CoreClient) (err : Error) :
    String → List GetProjectsResponseValue → Prop
  | token, [] => coreClient.GetProjects token = .error err
  | token, page :: rest =>
    coreClient.GetProjects token = .ok page ∧ page.ContinuationToken ≠ "" ∧
      FailsAfterPages coreClient err page.ContinuationToken rest

/-- Two pages of projects. -/
def samplePages : List GetProjectsResponseValue :=
  [⟨[⟨"1", "Alpha"⟩, ⟨"2", "Legacy"⟩], "page2"⟩, ⟨[⟨"3", "Beta"⟩], ""⟩]

/-- A service that serves `samplePages`. -/
def sampleCoreClient : CoreClient where
  GetProjects := fun token =>
    if token = "" then .ok ⟨[⟨"1", "Alpha"⟩, ⟨"2", "Legacy"⟩], "page2"⟩
    else if token = "page2" then .ok ⟨[⟨"3", "Beta"⟩], ""⟩
    else .error "invalid continuation token"

/-- A service that serves the first page of `samplePages` and then fails. -/
def failingCoreClient : CoreClient where
  GetProjects := fun token =>
    if token = "" then .ok ⟨[⟨"1", "Alpha"⟩, ⟨"2", "Legacy"⟩], "page2"⟩
    else .error "503 service unavailable"

/-- Exclusion files: `.exclude` lists the project `Legacy`, the repository
`Alpha/old`, an empty line, and a line with two `/`. -/
def sampleExclusions : Files where
  Open := fun filename =>
    if filename = ".exclude" then .ok ("Legacy\r\nAlpha/old\n\na/b/c\nlast", none)
    else .error "open: no such file or directory"

/-- The exclusion list of the file `.exclude` of `sampleExclusions`. -/
def sampleExclusionList : ExclusionList :=
  ⟨[("last", true), ("", true), ("Legacy", true)], [("Alpha/old", true)]⟩

/-- The fields of `git.GitRepository` that the program reads. `Id` is the
text of the identifier, `repo.Id.String()`, and `Size` is a `uint64`. -/
structure GitRepository where
  Id : String
  Name : String
  DefaultBranch : String
  Size : Nat
  deriving DecidableEq, Repr

/-- The field of `git.GitBranchStats` that the program reads. -/
structure GitBranchStats where
  Name : String
  deriving DecidableEq, Repr

/-- A commit of `git.GitCommitRef`, by its identifier. -/
structure GitCommitRef where
  CommitId : String
  deriving DecidableEq, Repr

/-- An item of `git.GitItem`, by its path. -/
structure GitItem where
  Path : String
  deriving DecidableEq, Repr

/-- The methods of `git.Client` that the program calls. -/
structure GitClient where
  /-- The method `GetRepositories`, for a project. -/
  GetRepositories : String → Except Error (List GitRepository)
  /-- The method `GetItems`, for a project, a repository and a scope path, without recursion. -/
  GetItems : String → String → String → Except Error (List GitItem)
  /-- The method `GetRepository`, for a project and a repository. -/
  GetRepository : String → String → Except Error GitRepository
  /-- The method `GetBranches`, for a project and a repository. -/
  GetBranches : String → String → Except Error (List GitBranchStats)
  /-- The method `GetCommits`, for a project, a repository, a branch, a start date, and the
  numbers `Top` and `Skip` of the search criteria. -/
  GetCommits : String → String → String → String → Nat → Nat → Except Error (List GitCommitRef)

/-- The function `isRepoEmpty`. -/
def isRepoEmpty (gitClient : GitClient) (projectID repoID : String) : Bool × Option Error :=
  let path := "/"
  match gitClient.GetItems projectID repoID path with
  | .error err => (false, some err)
  | .ok items => (items.length == 0, none)

/-- The fields of `ParamsProjectAzure` that the program reads after it has
built the clients. -/
structure ParamsProjectAzure where
  Projects : List TeamProjectReference
  Organization : String
  Exclusionlist : ExclusionList
  Excludeproject : Nat
  Period : Int
  DefaultB : Bool
  SingleRepos : String
  SingleBranch : String

/-- What `listReposForProject` yields: its five results, and the identifiers
of the repositories for which it called `isRepoEmpty`, in order. -/
structure ListRepos where
  archivedCount : Nat
  emptyCount : Nat
  excludedCount : Nat
  allRepos : List GitRepository
  err : Option Error
  probed : List String
  deriving DecidableEq, Repr

/-- The loop of `listReposForProject` over the repositories (lines 628-648),
from a state of its variables. -/
def listReposForProject_loop (parms : ParamsProjectAzure) (projectKey : String)
    (gitClient : GitClient) :
    List GitRepository → List GitRepository → Nat → Nat → Nat → List String → ListRepos
  | [], allRepos, archivedCount, emptyCount, excludedCount, probed =>
    ⟨archivedCount, emptyCount, excludedCount, allRepos, none, probed⟩
  | repo :: rest, allRepos, archivedCount, emptyCount, excludedCount, probed =>
    let repoName := repo.Name
    if isRepoExcluded parms.Exclusionlist projectKey repoName then
      listReposForProject_loop parms projectKey gitClient rest allRepos archivedCount emptyCount
        (excludedCount + 1) probed
    else
      let repoID := repo.Id
      match isRepoEmpty gitClient projectKey repoID with
      | (_, some err) => ⟨0, 0, 0, [], some err, probed ++ [repoID]⟩
      | (isEmpty, none) =>
        if isEmpty then
          listReposForProject_loop parms projectKey gitClient rest allRepos archivedCount
            (emptyCount + 1) excludedCount (probed ++ [repoID])
        else
          listReposForProject_loop parms projectKey gitClient rest (allRepos ++ [repo])
            archivedCount emptyCount excludedCount (probed ++ [repoID])

/-- The function `listReposForProject`. -/
def listReposForProject (parms : ParamsProjectAzure) (projectKey : String)
    (gitClient : GitClient) : ListRepos :=
  match gitClient.GetRepositories projectKey with
  | .error err => ⟨0, 0, 0, [], some err, []⟩
  | .ok repos => listReposForProject_loop parms projectKey gitClient repos [] 0 0 0 []

/-- The loop `for` of `getCommitCount` (lines 753-781), from a state of its
variables and the values of `skip` of the requests made so far; `none` when the
fuel runs out. The result carries the two results of the function and the values
of `skip` of all the requests. -/
def getCommitCount_loop (gitClient : GitClient) (projectID repoID branchName sinceStr : String)
    (pages : Nat) : Nat → Nat → Nat → List Nat → Option (Nat × Option Error × List Nat)
  | 0, _, _, _ => none
  | fuel + 1, totalCommits, skip, requests =>
    match gitClient.GetCommits projectID repoID branchName sinceStr pages skip with
    | .error err => some (0, some err, requests ++ [skip])
    | .ok commits =>
      let totalCommits := totalCommits + commits.length
      if commits.length < pages then some (totalCommits, none, requests ++ [skip])
      else
        getCommitCount_loop gitClient projectID repoID branchName sinceStr pages fuel
          totalCommits (skip + pages) (requests ++ [skip])

/-- The function `getCommitCount`. -/
def getCommitCount (fuel : Nat) (gitClient : GitClient)
    (projectID repoID branchName sinceStr : String) : Option (Nat × Option Error × List Nat) :=
  let totalCommits := 0
  let pages := 100
  let skip := 0
  getCommitCount_loop gitClient projectID repoID branchName sinceStr pages fuel totalCommits skip []

/-- The constant `REF` of `getMostImportantBranch`. -/
def REF : String := "refs/heads/"

/-- The loop of `getMostImportantBranch` over the branches (lines 707-728),
from a state of its variables; `none` when a call of `getCommitCount` runs out
of fuel. -/
def getMostImportantBranch_loop (fuel : Nat) (gitClient : GitClient)
    (projectID repoID sinceStr defaultBranch : String) (nbranches : Nat) :
    List GitBranchStats → String → Nat → Int → Nat → Option (String × Int × Nat × Option Error)
  | [], mostImportantBranch, _, totalCommitSize, nbrbranches =>
    some (mostImportantBranch, totalCommitSize, nbrbranches, none)
  | branch :: rest, mostImportantBranch, maxCommits, totalCommitSize, _ =>
    let branchCommitSize : Int := 0
    match getCommitCount fuel gitClient projectID repoID branch.Name sinceStr with
    | none => none
    | some (_, some err, _) => some ("", 0, 0, some err)
    | some (commitCount, none, _) =>
      let newMax := commitCount > maxCommits
      let maxCommits := if newMax then commitCount else maxCommits
      let mostImportantBranch :=
        if newMax then TrimPrefix branch.Name REF else mostImportantBranch
      let totalCommitSize := if newMax then branchCommitSize else totalCommitSize
      let mostImportantBranch :=
        if maxCommits = 0 then TrimPrefix defaultBranch REF else mostImportantBranch
      getMostImportantBranch_loop fuel gitClient projectID repoID sinceStr defaultBranch nbranches
        rest mostImportantBranch maxCommits totalCommitSize nbranches

/-- The function `getMostImportantBranch`. The clock enters through `since`,
which gives `time.Now().AddDate(0, periode, 0).Format(time.RFC3339)`. -/
def getMostImportantBranch (fuel : Nat) (since : Int → String) (gitClient : GitClient)
    (projectID repoID : String) (periode : Int) (DefaultB : Bool) :
    Option (String × Int × Nat × Option Error) :=
  let sinceStr := since periode
  match gitClient.GetRepository projectID repoID with
  | .error err1 => some ("", 0, 0, some err1)
  | .ok repo =>
    let defaultBranch := repo.DefaultBranch
    if !DefaultB then
      match gitClient.GetBranches projectID repoID with
      | .error err => some ("", 0, 0, some err)
      | .ok branches =>
        getMostImportantBranch_loop fuel gitClient projectID repoID sinceStr defaultBranch
          branches.length branches "" 0 0 0
    else
      match getCommitCount fuel gitClient projectID repoID (TrimPrefix defaultBranch REF)
          sinceStr with
      | none => none
      | some (_, some err1, _) => some ("", 0, 0, some err1)
      | some (commitCount, none, _) =>
        let totalCommitSize : Int := if commitCount = 0 then wrapInt repo.Size else commitCount
        some (TrimPrefix defaultBranch REF, totalCommitSize, 1, none)

/-- The commits of the branch `main` of the sample repository: 205 of them. -/
def sampleCommits : List GitCommitRef :=
  List.replicate 205 ⟨"c0ffee"⟩

/-- A service with one project `Alpha` holding the repositories `app`
(branches `main` with `sampleCommits`, `dev` and `hotfix` with 3 commits each),
`old` (excluded by `sampleExclusionList`) and `void` (empty). -/
def sampleGitClient : GitClient where
  GetRepositories := fun project =>
    if project = "Alpha" then
      .ok [⟨"id-old", "old", "refs/heads/master", 10⟩, ⟨"id-app", "app", "refs/heads/dev", 50⟩,
        ⟨"id-void", "void", "", 0⟩]
    else .error "project not found"
  GetItems := fun _ repoID _ => if repoID = "id-void" then .ok [] else .ok [⟨"/"⟩]
  GetRepository := fun _ repoID =>
    if repoID = "app" then .ok ⟨"id-app", "app", "refs/heads/dev", 50⟩
    else .error "repository not found"
  GetBranches := fun _ _ => .ok [⟨"dev"⟩, ⟨"refs/heads/main"⟩, ⟨"hotfix"⟩]
  GetCommits := fun _ _ branch _ top skip =>
    if branch = "refs/heads/main" then .ok ((sampleCommits.drop skip).take top)
    else .ok (((sampleCommits.take 3).drop skip).take top)

/-- A service that answers the first request for commits with a full page and
fails at the second, and fails at the probe of the repository `app`. -/
def failingGitClient : GitClient where
  GetRepositories := sampleGitClient.GetRepositories
  GetItems := fun _ repoID _ =>
    if repoID = "id-app" then .error "503 service unavailable" else .ok []
  GetRepository := sampleGitClient.GetRepository
  GetBranches := sampleGitClient.GetBranches
  GetCommits := fun _ _ _ _ top skip =>
    if skip = 0 then .ok (sampleCommits.take top) else .error "503 service unavailable"

/-- The parameters of an analysis of the project `Alpha` under
`sampleExclusionList`. -/
def sampleParams : ParamsProjectAzure :=
  ⟨[⟨"1", "Alpha"⟩], "org", sampleExclusionList, 1, -3, false, "", ""⟩

/-- The type `ProjectBranch`. -/
structure ProjectBranch where
  Org : String
  ProjectKey : String
  RepoSlug : String
  MainBranch : String
  LargestSize : Int
  deriving DecidableEq, Repr

/-- The type `SummaryStats`. -/
structure SummaryStats where
  LargestRepo : String
  LargestRepoBranch : String
  NbRepos : Int
  EmptyRepo : Int
  TotalExclude : Int
  TotalArchiv : Int
  TotalBranches : Int
  deriving DecidableEq, Repr

/-- The loop of `findLargestRepository` (lines 509-517), from a state of its
variables and of `*totalSize`. -/
def findLargestRepository_loop :
    List ProjectBranch → String → String → Int → Int → String × String × Int
  | [], largestRepoBranch, largesRepo, _, totalSize => (largestRepoBranch, largesRepo, totalSize)
  | branch :: rest, largestRepoBranch, largesRepo, largestRepoSize, totalSize =>
    let larger := branch.LargestSize > largestRepoSize
    findLargestRepository_loop rest
      (if larger then branch.MainBranch else largestRepoBranch)
      (if larger then branch.RepoSlug else largesRepo)
      (if larger then branch.LargestSize else largestRepoSize)
      (wrapInt (totalSize + branch.LargestSize))

/-- The function `findLargestRepository`: its two results, and the value of
`*totalSize` when it returns. -/
def findLargestRepository (importantBranches : List ProjectBranch) (totalSize : Int) :
    String × String × Int :=
  findLargestRepository_loop importantBranches "" "" 0 totalSize

/-- The number that `printSummary` prints as the total of the repositories
that will be analyzed. -/
def printSummary_analyzed (stats : SummaryStats) : Int :=
  stats.NbRepos - stats.EmptyRepo - stats.TotalExclude - stats.TotalArchiv

/-- The function `printSummary`: the three lines it prints. -/
def printSummary (Org : String) (stats : SummaryStats) : List String :=
  ["\n✅ The largest Repository is <" ++ stats.LargestRepo ++ "> in the organization <" ++ Org ++
      "> with the branch <" ++ stats.LargestRepoBranch ++ "> \n",
   "\r✅ Total Repositories that will be analyzed: " ++ toString (printSummary_analyzed stats) ++
      " - Find empty : " ++ toString stats.EmptyRepo ++ " - Excluded : " ++
      toString stats.TotalExclude ++ " - Archived : " ++ toString stats.TotalArchiv ++ "\n",
   "\r✅ Total Branches that will be analyzed: " ++ toString stats.TotalBranches ++ "\n"]

/-- The function `analyzeRepoBranches`; `none` when `getMostImportantBranch`
runs out of fuel. -/
def analyzeRepoBranches (fuel : Nat) (since : Int → String) (parms : ParamsProjectAzure)
    (projectKey repo : String) (gitClient : GitClient) (_cpt : Nat) :
    Option (String × Nat × Int × Option Error) :=
  match getMostImportantBranch fuel since gitClient projectKey repo parms.Period
      parms.DefaultB with
  | none => none
  | some (_, _, _, some err) => some ("", 0, 1, some err)
  | some (largestRepoBranch, brsize, nbrbranch, none) =>
    some (largestRepoBranch, nbrbranch, brsize, none)

/-- What `getRepoAnalyse` returns: its seven results. -/
structure RepoAnalyse where
  importantBranches : List ProjectBranch
  emptyRepos : Nat
  NBRrepos : Nat
  TotalBranches : Nat
  totalexclude : Nat
  cptarchiv : Nat
  err : Option Error
  deriving DecidableEq, Repr

/-- The loop of `getRepoAnalyse` over the repositories of a project (lines
585-603), from `importantBranches`, `TotalBranches` and `cpt`. -/
def getRepoAnalyse_repos (fuel : Nat) (since : Int → String) (params : ParamsProjectAzure)
    (projectName : String) (gitClient : GitClient) :
    List GitRepository → List ProjectBranch → Nat → Nat → Option (List ProjectBranch × Nat × Nat)
  | [], importantBranches, TotalBranches, cpt => some (importantBranches, TotalBranches, cpt)
  | repo :: rest, importantBranches, TotalBranches, cpt =>
    match analyzeRepoBranches fuel since params projectName repo.Name gitClient cpt with
    | none => none
    | some (largestRepoBranch, repobranches, brsize, err) =>
      let largestRepoBranch := if err.isSome then repo.DefaultBranch else largestRepoBranch
      getRepoAnalyse_repos fuel since params projectName gitClient rest
        (importantBranches ++
          [⟨params.Organization, projectName, repo.Name, largestRepoBranch, brsize⟩])
        (TotalBranches + repobranches) (cpt + 1)

/-- The variables of `getRepoAnalyse` that are declared before its loop over
the projects. -/
structure RepoAnalyseVars where
  emptyRepos : Nat
  totalexclude : Nat
  importantBranches : List ProjectBranch
  NBRrepo : Nat
  TotalBranches : Nat
  NBRrepos : Nat
  cptarchiv : Nat
  cpt : Nat
  deriving DecidableEq, Repr

/-- The loop of `getRepoAnalyse` over the projects (lines 555-609) and the
return after it. The short declaration of line 560 declares, in the scope of the
body, the five variables `emptyOrArchivedCount`, `emptyRepos`, `excludedCount`,
`repos` and `err`, which receive the results of `listReposForProject` in their
order: the body's `emptyRepos` is not the variable of line 529. `Errorf` is
the function `fmt.Errorf` on a format without operands, to which line 570 passes
the message it has built. -/
def getRepoAnalyse_loop (fuel : Nat) (since : Int → String) (Errorf : String → Error)
    (params : ParamsProjectAzure) (gitClient : GitClient) :
    List TeamProjectReference → RepoAnalyseVars → Option RepoAnalyse
  | [], vars =>
    some ⟨vars.importantBranches, vars.emptyRepos, vars.NBRrepos, vars.TotalBranches,
      vars.totalexclude, vars.cptarchiv, none⟩
  | project :: rest, vars =>
    let listed := listReposForProject params project.Name gitClient
    let emptyOrArchivedCount := listed.archivedCount
    let bodyEmptyRepos := listed.emptyCount
    let excludedCount := listed.excludedCount
    let repos := listed.allRepos
    match listed.err with
    | some err =>
      if params.SingleRepos.utf8ByteSize = 0 then
        getRepoAnalyse_loop fuel since Errorf params gitClient rest vars
      else
        let errmessage :=
          " Get Repo " ++ params.SingleRepos ++ " for Project " ++ project.Name ++ " " ++ err
        some ⟨vars.importantBranches, bodyEmptyRepos, vars.NBRrepos, vars.TotalBranches,
          vars.totalexclude, vars.cptarchiv, some (Errorf errmessage)⟩
    | none =>
      let _bodyEmptyRepos := bodyEmptyRepos + emptyOrArchivedCount
      let totalexclude := vars.totalexclude + excludedCount
      let NBRrepo :=
        if emptyOrArchivedCount > 0 then repos.length + emptyOrArchivedCount else repos.length
      match getRepoAnalyse_repos fuel since params project.Name gitClient repos
          vars.importantBranches vars.TotalBranches vars.cpt with
      | none => none
      | some (importantBranches, TotalBranches, cpt) =>
        getRepoAnalyse_loop fuel since Errorf params gitClient rest
          ⟨vars.emptyRepos, totalexclude, importantBranches, NBRrepo, TotalBranches,
            vars.NBRrepos + NBRrepo, vars.cptarchiv, cpt⟩

/-- The function `getRepoAnalyse`; `none` when a loop over commits runs out of
fuel. -/
def getRepoAnalyse (fuel : Nat) (since : Int → String) (Errorf : String → Error)
    (params : ParamsProjectAzure) (gitClient : GitClient) : Option RepoAnalyse :=
  getRepoAnalyse_loop fuel since Errorf params gitClient params.Projects
    ⟨0, 0, [], 0, 0, 0, 0, 1⟩

/-- The function `fmt.Errorf` without operands on the formats that hold no
`%`: the message of the error is the format. -/
def plainErrorf : String → Error :=
  fun format => format

/-- The statistics that `GetRepoAzureList` hands to `printSummary` (lines
326-345), from the results of `getRepoAnalyse`. -/
def GetRepoAzureList_stats (analysed : RepoAnalyse) : SummaryStats :=
  match findLargestRepository analysed.importantBranches 0 with
  | (largestRepoBranch, largesRepo, _) =>
    ⟨largesRepo, largestRepoBranch, analysed.NBRrepos, analysed.emptyRepos,
      analysed.totalexclude, analysed.cptarchiv, analysed.TotalBranches⟩

/-- Three entries of an analysis: sizes 7, 30 and 30. -/
def sampleBranches : List ProjectBranch :=
  [⟨"org", "Alpha", "lib", "main", 7⟩, ⟨"org", "Alpha", "app", "develop", 30⟩,
   ⟨"org", "Beta", "web", "master", 30⟩]

end Getazure

end Gcloc

/-! # Theorems -/

namespace Gcloc

/-! ## `Getrepos` -/

namespace Gogit

theorem length_EncodeToString (src : List Nat) :
    (EncodeToString src).length = 2 * src.length := by
  unfold EncodeToString
  rw [String.length_mk]
  induction src with
  | nil => rfl
  | cons v vs ih =>
    simp only [List.flatMap_cons, List.length_append, List.length_cons, List.length_nil, ih]
    omega

theorem hexDigit_mem (n : Nat) (h : n < 16) : hextable.getD n '0' ∈ hextable := by
  interval_cases n <;> decide

theorem EncodeToString_hex (src : List Nat) (hsrc : ∀ v ∈ src, v < 256) :
    ∀ c ∈ (EncodeToString src).data, c ∈ hextable := by
  unfold EncodeToString
  intro c hc
  simp only [List.mem_flatMap, List.mem_cons, List.mem_singleton, List.not_mem_nil,
    or_false] at hc
  obtain ⟨v, hv, hcv⟩ := hc
  have hlt := hsrc v hv
  rcases hcv with rfl | rfl
  · exact hexDigit_mem _ (by omega)
  · exact hexDigit_mem _ (Nat.mod_lt _ (by decide))

/-- C1: when `git.PlainClone` fails, and a failed clone leaves no destination
behind, `Getrepos` returns the empty path and a non-nil error: it prints the
error of the clone and returns the error of the `os.Lstat` of the destination. -/
theorem Getrepos_clone_error (env : Env) (src branch dst : String) (cloneErr : Error)
    (hremoves : RemovesFailedClone env)
    (hdst : dst = env.Join env.TempDir ("gcloc-extract-" ++
      EncodeToString ((List.range 16).map fun i => env.randRead.1 i % 256)))
    (hclone : env.PlainClone dst src branch = some cloneErr) :
    (Getrepos env src branch).path = "" ∧ (Getrepos env src branch).err ≠ none ∧
      (env.randRead.2 = none →
        ∃ lstatErr, env.Lstat dst = .error lstatErr ∧
          Getrepos env src branch =
            ⟨"", some lstatErr,
              ["\n-- Stack: gogit.Getrepos Git Clone -- : " ++ cloneErr,
               "\n-- Stack: gogit.Getrepos Git Clone -Branch - : " ++ branch]⟩) := by
  obtain ⟨lstatErr, hlstat⟩ := hremoves dst src branch (by rw [hclone]; simp)
  subst hdst
  cases hrand : env.randRead.2 with
  | some err =>
    simp [Getrepos, randomSuffix, hrand]
  | none =>
    have hval : Getrepos env src branch =
        ⟨"", some lstatErr,
          ["\n-- Stack: gogit.Getrepos Git Clone -- : " ++ cloneErr,
           "\n-- Stack: gogit.Getrepos Git Clone -Branch - : " ++ branch]⟩ := by
      simp only [Getrepos, randomSuffix, hrand, isSymLink, hlstat, hclone]
    refine ⟨by rw [hval], by rw [hval]; simp, fun _ => ⟨lstatErr, hlstat, hval⟩⟩

/-- C1 in `cloneFailsEnv`, where the remote refuses the credentials: the result
is the empty path with the error of `os.Lstat`, after the two printed lines. -/
theorem Getrepos_clone_error_witness :
    Getrepos cloneFailsEnv "https://example.org/team/repo.git" "main" =
        ⟨"", some ("lstat /tmp/gcloc-extract-0a1a2a3a4a5a6a7a8a9aaabacadaeafa: " ++
            "no such file or directory"),
          ["\n-- Stack: gogit.Getrepos Git Clone -- : authentication required",
           "\n-- Stack: gogit.Getrepos Git Clone -Branch - : main"]⟩ ∧
      (Getrepos cloneFailsEnv "https://example.org/team/repo.git" "main").path = "" ∧
      (Getrepos cloneFailsEnv "https://example.org/team/repo.git" "main").err ≠ none :=
  ⟨by decide,
    (Getrepos_clone_error cloneFailsEnv "https://example.org/team/repo.git" "main"
      "/tmp/gcloc-extract-0a1a2a3a4a5a6a7a8a9aaabacadaeafa" "authentication required"
      (fun _ _ _ _ => ⟨_, rfl⟩) (by decide) rfl).1,
    (Getrepos_clone_error cloneFailsEnv "https://example.org/team/repo.git" "main"
      "/tmp/gcloc-extract-0a1a2a3a4a5a6a7a8a9aaabacadaeafa" "authentication required"
      (fun _ _ _ _ => ⟨_, rfl⟩) (by decide) rfl).2.1⟩

/-- C2: when the random source gives its 16 bytes and the lstat of the
destination succeeds, the suffix is the hexadecimal encoding of 16 bytes, it has
32 characters, all among `0123456789abcdef`, and `Getrepos` returns the
destination `Join(TempDir, "gcloc-extract-" + suffix)` with a nil error when
the destination is not a symbolic link, and otherwise the target of the link
with a nil error, or the empty path with the error of `Readlink`. -/
theorem Getrepos_returns_destination (env : Env) (src branch : String) (symLink : Bool)
    (randBytes : List Nat) (suffix dst : String)
    (hbytes : randBytes = (List.range 16).map fun i => env.randRead.1 i % 256)
    (hsuffix : suffix = EncodeToString randBytes)
    (hdst : dst = env.Join env.TempDir ("gcloc-extract-" ++ suffix))
    (hrand : env.randRead.2 = none)
    (hlstat : env.Lstat dst = .ok symLink) :
    randBytes.length = 16 ∧ (∀ v ∈ randBytes, v < 256) ∧
      suffix.length = 32 ∧ (∀ c ∈ suffix.data, c ∈ "0123456789abcdef".data) ∧
      ((Getrepos env src branch).path, (Getrepos env src branch).err) =
        (if symLink then
          match env.Readlink dst with
          | .ok origin => (origin, none)
          | .error err => ("", some err)
        else (dst, none)) := by
  have hlen : randBytes.length = 16 := by rw [hbytes]; simp
  have hlt : ∀ v ∈ randBytes, v < 256 := by
    rw [hbytes]
    intro v hv
    simp only [List.mem_map] at hv
    obtain ⟨i, _, rfl⟩ := hv
    exact Nat.mod_lt _ (by decide)
  refine ⟨hlen, hlt, ?_, ?_, ?_⟩
  · rw [hsuffix, length_EncodeToString, hlen]
  · rw [hsuffix]
    exact EncodeToString_hex randBytes hlt
  · subst hbytes hsuffix hdst
    simp only [Getrepos, randomSuffix, hrand, isSymLink, hlstat]
    cases symLink with
    | false => simp
    | true =>
      simp only [if_true]
      cases env.Readlink _ <;> rfl

/-- C2 at a concrete environment: the destination is a symbolic link to
`/data/repo`, which is what `Getrepos` returns. -/
theorem Getrepos_returns_destination_witness :
    ((Getrepos symlinkEnv "https://example.org/team/repo.git" "main").path,
      (Getrepos symlinkEnv "https://example.org/team/repo.git" "main").err) =
        ("/data/repo", none) :=
  (Getrepos_returns_destination symlinkEnv "https://example.org/team/repo.git" "main" true
    ((List.range 16).map fun i => symlinkEnv.randRead.1 i % 256)
    "00112233445566778899aabbccddeeff" "/tmp/gcloc-extract-00112233445566778899aabbccddeeff"
    rfl (by decide) (by decide) rfl rfl).2.2.2.2

end Gogit

/-! ## The report artifacts and the analysis functions of `main` -/

namespace Main

open Strings

/-- C4: the JSON keys of the type `Result`, into which `main` decodes a report, are
exactly `TotalFiles`, `TotalLines`, `TotalBlankLines`, `TotalComments`,
`TotalCodeLines` and `Results`; the field with the key `Results` is a slice of
`LanguageRes`, whose keys are exactly `Language`, `Files`, `Lines`,
`BlankLines`, `Comments` and `CodeLines`. -/
theorem Result_json_keys :
    jsonKeys Result_fields =
        ["TotalFiles", "TotalLines", "TotalBlankLines", "TotalComments", "TotalCodeLines",
          "Results"] ∧
      (Result_fields.filter fun f => jsonKey f = some "Results").map StructField.GoType =
        ["[]LanguageRes"] ∧
      jsonKeys LanguageRes_fields =
        ["Language", "Files", "Lines", "BlankLines", "Comments", "CodeLines"] := by
  decide

theorem wrapInt_add_left (a b : Int) : wrapInt (wrapInt a + b) = wrapInt (a + b) := by
  unfold wrapInt
  omega

theorem main_loopBody_skip (env : ReportEnv) (d : String) (st : Summary) (file : DirEntry)
    (h : reportOf env d file = none) : main_loopBody env d st file = some st := by
  unfold reportOf at h
  unfold main_loopBody
  by_cases hc : (!file.IsDir && HasSuffix file.Name ".json") = true
  · rw [if_pos hc] at h ⊢
    cases hr : env.ReadFile (env.Join d file.Name) with
    | error e => simp only [hr]
    | ok jsonData =>
      simp only [hr] at h ⊢
      cases hu : env.Unmarshal jsonData with
      | error e => simp only [hu]
      | ok result => simp only [hu] at h; cases h
  · rw [if_neg hc]

theorem main_loopBody_count (env : ReportEnv) (d : String) (st st1 : Summary) (file : DirEntry)
    (result : Result) (h : reportOf env d file = some result)
    (hb : main_loopBody env d st file = some st1) :
    st1.totalCodeLinesSum = wrapInt (st.totalCodeLinesSum + result.TotalCodeLines) := by
  unfold reportOf at h
  unfold main_loopBody at hb
  by_cases hc : (!file.IsDir && HasSuffix file.Name ".json") = true
  · rw [if_pos hc] at h hb
    cases hr : env.ReadFile (env.Join d file.Name) with
    | error e => simp only [hr] at h; cases h
    | ok jsonData =>
      simp only [hr] at h hb
      cases hu : env.Unmarshal jsonData with
      | error e => simp only [hu] at h; cases h
      | ok res =>
        simp only [hu, Option.some.injEq] at h hb
        subst h
        split at hb
        · split at hb
          · cases hb; rfl
          · cases hb
        · cases hb; rfl
  · rw [if_neg hc] at h; cases h

theorem main_loop_sum (env : ReportEnv) (d : String) (files : List DirEntry) :
    ∀ (st st1 : Summary) (z : Int), st.totalCodeLinesSum = wrapInt z →
      main_loop env d files st = some st1 →
      st1.totalCodeLinesSum =
        wrapInt (z + ((files.filterMap (reportOf env d)).map Result.TotalCodeLines).sum) := by
  induction files with
  | nil =>
    intro st st1 z hz h
    simp only [main_loop, Option.some.injEq] at h
    subst h
    simpa using hz
  | cons file files ih =>
    intro st st1 z hz h
    simp only [main_loop] at h
    cases hb : main_loopBody env d st file with
    | none => rw [hb] at h; cases h
    | some st2 =>
      rw [hb] at h
      cases hr : reportOf env d file with
      | none =>
        rw [main_loopBody_skip env d st file hr] at hb
        cases hb
        simpa [List.filterMap_cons, hr] using ih st st1 z hz h
      | some result =>
        have h2 := main_loopBody_count env d st st2 file result hr hb
        rw [hz, wrapInt_add_left] at h2
        have := ih st2 st1 (z + result.TotalCodeLines) h2 h
        simpa [List.filterMap_cons, hr, add_assoc] using this

theorem main_loopBody_some (env : ReportEnv) (d : String) (st : Summary) (file : DirEntry)
    (h : reportOf env d file ≠ none →
      3 ≤ (Split (TrimSuffix file.Name ".json") '_').length) :
    ∃ st1, main_loopBody env d st file = some st1 := by
  cases hr : reportOf env d file with
  | none => exact ⟨st, main_loopBody_skip env d st file hr⟩
  | some result =>
    have hlen := h (by rw [hr]; simp)
    have h1 : (Split (TrimSuffix file.Name ".json") '_')[1]? =
        some ((Split (TrimSuffix file.Name ".json") '_')[1]) :=
      List.getElem?_eq_getElem (by omega)
    have h2 : (Split (TrimSuffix file.Name ".json") '_')[2]? =
        some ((Split (TrimSuffix file.Name ".json") '_')[2]) :=
      List.getElem?_eq_getElem (by omega)
    unfold main_loopBody
    split
    · cases hrf : env.ReadFile (env.Join d file.Name) with
      | error e => simp only [hrf]; exact ⟨_, rfl⟩
      | ok jsonData =>
        simp only [hrf]
        cases hu : env.Unmarshal jsonData with
        | error e => simp only [hu]; exact ⟨_, rfl⟩
        | ok res =>
          simp only [hu, h1, h2]
          split <;> exact ⟨_, rfl⟩
    · exact ⟨_, rfl⟩

theorem main_loop_some (env : ReportEnv) (d : String) (files : List DirEntry) :
    ∀ st : Summary,
      (∀ file ∈ files, reportOf env d file ≠ none →
        3 ≤ (Split (TrimSuffix file.Name ".json") '_').length) →
      ∃ st1, main_loop env d files st = some st1 := by
  induction files with
  | nil => intro st _; exact ⟨st, rfl⟩
  | cons file files ih =>
    intro st h
    obtain ⟨st2, h2⟩ := main_loopBody_some env d st file (h file (List.mem_cons_self file files))
    obtain ⟨st1, h1⟩ := ih st2 (fun f hf => h f (List.mem_cons_of_mem file hf))
    exact ⟨st1, by simp only [main_loop, h2, h1]⟩

/-- C3: an entry of the results directory that is a directory, whose name does not
end in `.json`, that cannot be read or that does not parse as a `Result` leaves the
variables of the aggregation unchanged and the loop goes on; the value of
`totalCodeLinesSum` with which the aggregation ends is the sum, in the `int` of
Go, of `TotalCodeLines` over the other entries; and the aggregation does end
when the name of each of these, without `.json`, has three fields or more
between `_`. -/
theorem main_totalCodeLinesSum (env : ReportEnv) (DestinationResult : String) :
    (∀ (st : Summary) (file : DirEntry), reportOf env DestinationResult file = none →
        main_loopBody env DestinationResult st file = some st) ∧
      (∀ (files : List DirEntry) (st : Summary),
        main_aggregate env DestinationResult files = some st →
        st.totalCodeLinesSum =
          wrapInt ((files.filterMap (reportOf env DestinationResult)).map
            Result.TotalCodeLines).sum) ∧
      ∀ files : List DirEntry,
        (∀ file ∈ files, reportOf env DestinationResult file ≠ none →
          3 ≤ (Split (TrimSuffix file.Name ".json") '_').length) →
        ∃ st, main_aggregate env DestinationResult files = some st := by
  refine ⟨fun st file h => main_loopBody_skip env DestinationResult st file h, ?_, ?_⟩
  · intro files st h
    have := main_loop_sum env DestinationResult files ⟨0, 0, "", ""⟩ st 0 (by decide) h
    simpa using this
  · intro files h
    exact main_loop_some env DestinationResult files ⟨0, 0, "", ""⟩ h

/-- C3 on the directory of `sampleReports`: the two reports count 100 and 40 lines
of code, the four other entries nothing. -/
theorem main_totalCodeLinesSum_witness :
    main_aggregate sampleReports "/r" sampleFiles = some ⟨140, 100, "P", "alpha"⟩ ∧
      (140 : Int) = wrapInt ((sampleFiles.filterMap (reportOf sampleReports "/r")).map
        Result.TotalCodeLines).sum ∧
      ∃ st, main_aggregate sampleReports "/r" sampleFiles = some st :=
  ⟨by decide,
    (main_totalCodeLinesSum sampleReports "/r").2.1 sampleFiles ⟨140, 100, "P", "alpha"⟩
      (by decide),
    (main_totalCodeLinesSum sampleReports "/r").2.2 sampleFiles (by decide)⟩

/-- C10 (the code departs from the claim): with `removeFailsEnv` the removal of
the directory of the repository `alpha` fails, and `AnalyseReposListB`,
`AnalyseReposList` and `AnalyseRepo` print no deletion error; the first two go
on to analyse the repository `beta` and return 2. -/
theorem Analyse_removeAll_error_ignored :
    removeFailsEnv.RemoveAll "/tmp/Result_P_alpha_main" = some "unlinkat: permission denied" ∧
      AnalyseReposListB removeFailsEnv "/r" "u" "t" "https" "http://h/" "bitbucket_dc"
          [⟨"P", "alpha", "main"⟩, ⟨"P", "beta", "main"⟩] =
        (.returned 2,
          [.print "\n🔎 Analysis of Repos ...\n",
           .run ⟨"https://u:t@h/scm/P/alpha.git", "Result_P_alpha_main", "/r", "main"⟩,
           .removeAll "/tmp/Result_P_alpha_main",
           .print "\t✅ The repository <alpha> has been analyzed\n",
           .run ⟨"https://u:t@h/scm/P/beta.git", "Result_P_beta_main", "/r", "main"⟩,
           .removeAll "/tmp/Result_P_beta_main",
           .print "\t✅ The repository <beta> has been analyzed\n"]) ∧
      removeFailsEnv.RemoveAll "/tmp/Result_alpha" = some "unlinkat: permission denied" ∧
      AnalyseReposList removeFailsEnv "/r" "u" "t" "gitlab" "org"
          [⟨1, "alpha", "org/alpha"⟩, ⟨2, "beta", "org/beta"⟩] =
        (.returned 2,
          [.print "\nAnalyse Repository : alpha\n",
           .print "    - main\n",
           .print "Scan PATH : https://u:t@gitlab.com/org/alpha?ref=main\n",
           .run ⟨"https://u:t@gitlab.com/org/alpha?ref=main", "Result_alpha", "/r", ""⟩,
           .removeAll "/tmp/Result_alpha",
           .print "\nAnalyse Repository : beta\n",
           .print "    - main\n",
           .print "Scan PATH : https://u:t@gitlab.com/org/beta?ref=main\n",
           .run ⟨"https://u:t@gitlab.com/org/beta?ref=main", "Result_beta", "/r", ""⟩,
           .removeAll "/tmp/Result_beta"]) ∧
      AnalyseRepo removeFailsEnv "/r" "u" "t" "github" "org" "alpha" =
        (.returned 1,
          [.run ⟨"https://u:t@github.com/org/alpha", "Result_alpha", "/r", ""⟩,
           .removeAll "/tmp/Result_alpha"]) := by
  decide

end Main

/-! ## Exclusion lists -/

namespace Strings

theorem splitChars_length (sep : Char) (l : List Char) :
    (splitChars sep l).length = l.count sep + 1 := by
  induction l with
  | nil => rfl
  | cons c cs ih =>
    unfold splitChars
    by_cases hc : c = sep
    · subst hc
      simp [ih]
    · rw [if_neg hc]
      have hne : ¬ (c == sep) = true := by simpa using hc
      cases hs : splitChars sep cs with
      | nil => rw [hs] at ih; simp at ih
      | cons piece pieces =>
        rw [hs] at ih
        simp only [List.length_cons] at ih ⊢
        rw [List.count_cons, if_neg hne]
        omega

theorem splitChars_of_not_mem (sep : Char) (l : List Char) (h : sep ∉ l) :
    splitChars sep l = [l] := by
  induction l with
  | nil => rfl
  | cons c cs ih =>
    simp only [List.mem_cons, not_or] at h
    unfold splitChars
    rw [if_neg (fun hc => h.1 hc.symm), ih h.2]

theorem Split_length (s : String) (sep : Char) :
    (Split s sep).length = s.data.count sep + 1 := by
  simp [Split, splitChars_length]

theorem Split_of_not_mem (s : String) (sep : Char) (h : sep ∉ s.data) :
    Split s sep = [s] := by
  simp [Split, splitChars_of_not_mem sep s.data h]

end Strings

namespace Getazure

open Strings

theorem BoolMap.has_set (m : BoolMap) (k q : String) (v : Bool) :
    (m.set k v).has q = true ↔ q = k ∨ m.has q = true := by
  unfold BoolMap.set BoolMap.has
  simp only [List.any_cons, Bool.or_eq_true, beq_iff_eq, List.any_eq_true, List.mem_filter,
    bne_iff_ne, ne_eq]
  constructor
  · rintro (h | ⟨e, ⟨he, _⟩, rfl⟩)
    · left; exact h.symm
    · right; exact ⟨e, he, rfl⟩
  · rintro (rfl | ⟨e, he, rfl⟩)
    · left; rfl
    · by_cases hk : e.1 = k
      · left; exact hk.symm
      · right; exact ⟨e, ⟨he, hk⟩, rfl⟩

theorem loadExclusionList_line_many (l0 : ExclusionList) (line : String)
    (h : 2 ≤ line.data.count '/') : loadExclusionList_line l0 line = l0 := by
  unfold loadExclusionList_line
  have hlen := Split_length line '/'
  simp only
  rw [if_neg (by omega), if_neg (by omega)]

theorem loadExclusionList_line_Projects (l0 : ExclusionList) (line q : String) :
    (loadExclusionList_line l0 line).Projects.has q = true ↔
      (q = line ∧ '/' ∉ line.data) ∨ l0.Projects.has q = true := by
  unfold loadExclusionList_line
  have hlen := Split_length line '/'
  by_cases h0 : '/' ∈ line.data
  · have hpos : 0 < line.data.count '/' := List.count_pos_iff.mpr h0
    simp only
    rw [if_neg (by omega)]
    split <;> simp [h0]
  · have hs := Split_of_not_mem line '/' h0
    simp only [hs, List.length_singleton, if_true, List.headD_cons, BoolMap.has_set]
    simp [h0]

theorem loadExclusionList_line_Repos (l0 : ExclusionList) (line q : String) :
    (loadExclusionList_line l0 line).Repos.has q = true ↔
      (q = line ∧ line.data.count '/' = 1) ∨ l0.Repos.has q = true := by
  unfold loadExclusionList_line
  have hlen := Split_length line '/'
  simp only
  by_cases h1 : (Split line '/').length = 1
  · rw [if_pos h1]
    have : line.data.count '/' ≠ 1 := by omega
    simp [this]
  · rw [if_neg h1]
    by_cases h2 : (Split line '/').length = 2
    · rw [if_pos h2]
      have : line.data.count '/' = 1 := by omega
      simp [BoolMap.has_set, this]
    · rw [if_neg h2]
      have : line.data.count '/' ≠ 1 := by omega
      simp [this]

theorem foldl_line_Projects (lines : List String) :
    ∀ (l0 : ExclusionList) (q : String),
      (lines.foldl loadExclusionList_line l0).Projects.has q = true ↔
        (q ∈ lines ∧ '/' ∉ q.data) ∨ l0.Projects.has q = true := by
  induction lines with
  | nil => intro l0 q; simp
  | cons line lines ih =>
    intro l0 q
    rw [List.foldl_cons, ih, loadExclusionList_line_Projects]
    simp only [List.mem_cons]
    constructor
    · rintro (⟨h, hq⟩ | ⟨rfl, hq⟩ | h)
      · exact Or.inl ⟨Or.inr h, hq⟩
      · exact Or.inl ⟨Or.inl rfl, hq⟩
      · exact Or.inr h
    · rintro (⟨rfl | h, hq⟩ | h)
      · exact Or.inr (Or.inl ⟨rfl, hq⟩)
      · exact Or.inl ⟨h, hq⟩
      · exact Or.inr (Or.inr h)

theorem foldl_line_Repos (lines : List String) :
    ∀ (l0 : ExclusionList) (q : String),
      (lines.foldl loadExclusionList_line l0).Repos.has q = true ↔
        (q ∈ lines ∧ q.data.count '/' = 1) ∨ l0.Repos.has q = true := by
  induction lines with
  | nil => intro l0 q; simp
  | cons line lines ih =>
    intro l0 q
    rw [List.foldl_cons, ih, loadExclusionList_line_Repos]
    simp only [List.mem_cons]
    constructor
    · rintro (⟨h, hq⟩ | ⟨rfl, hq⟩ | h)
      · exact Or.inl ⟨Or.inr h, hq⟩
      · exact Or.inl ⟨Or.inl rfl, hq⟩
      · exact Or.inr h
    · rintro (⟨rfl | h, hq⟩ | h)
      · exact Or.inr (Or.inl ⟨rfl, hq⟩)
      · exact Or.inl ⟨h, hq⟩
      · exact Or.inr (Or.inr h)

theorem count_slash_key (p r : String) (hp : '/' ∉ p.data) (hr : '/' ∉ r.data) :
    (p ++ "/" ++ r).data.count '/' = 1 := by
  simp only [String.data_append, List.count_append]
  rw [List.count_eq_zero_of_not_mem hp, List.count_eq_zero_of_not_mem hr]
  rfl

/-- C5: when the exclusion file opens and the scanner reaches its end without
error, `loadExclusionList` returns an exclusion list with a nil error, and for
a project key `p` and a repository name `r` without `/`: `isProjectExcluded`
holds of `p` exactly when a line of the file is `p`, `isRepoExcluded` holds of
`p` and `r` exactly when a line of the file is `p/r`; and a line with two or
more `/` leaves every exclusion list as it is. -/
theorem loadExclusionList_excludes (fs : Files) (filename content p r : String)
    (hopen : fs.Open filename = .ok (content, none))
    (hp : '/' ∉ p.data) (hr : '/' ∉ r.data) :
    ∃ list : ExclusionList, loadExclusionList fs filename = (some list, none) ∧
      (isProjectExcluded list p = true ↔ p ∈ ScanLines content) ∧
      (isRepoExcluded list p r = true ↔ (p ++ "/" ++ r) ∈ ScanLines content) ∧
      ∀ (l0 : ExclusionList) (line : String), 2 ≤ line.data.count '/' →
        loadExclusionList_line l0 line = l0 := by
  refine ⟨(ScanLines content).foldl loadExclusionList_line ⟨[], []⟩, ?_, ?_, ?_, ?_⟩
  · simp only [loadExclusionList, hopen]
  · unfold isProjectExcluded
    rw [foldl_line_Projects]
    simp [BoolMap.has, hp]
  · unfold isRepoExcluded
    rw [foldl_line_Repos]
    have hk := count_slash_key p r hp hr
    constructor
    · rintro (⟨h, _⟩ | h)
      · exact h
      · simp [BoolMap.has] at h
    · intro h
      exact Or.inl ⟨h, hk⟩
  · exact loadExclusionList_line_many

/-- C5 on the file `.exclude` of `sampleExclusions`, for the project `Legacy`
and the repository `old`. -/
theorem loadExclusionList_excludes_witness :
    ∃ list : ExclusionList, loadExclusionList sampleExclusions ".exclude" = (some list, none) ∧
      (isProjectExcluded list "Legacy" = true ↔
        "Legacy" ∈ ScanLines "Legacy\r\nAlpha/old\n\na/b/c\nlast") ∧
      (isRepoExcluded list "Legacy" "old" = true ↔
        ("Legacy" ++ "/" ++ "old") ∈ ScanLines "Legacy\r\nAlpha/old\n\na/b/c\nlast") ∧
      ∀ (l0 : ExclusionList) (line : String), 2 ≤ line.data.count '/' →
        loadExclusionList_line l0 line = l0 :=
  loadExclusionList_excludes sampleExclusions ".exclude" "Legacy\r\nAlpha/old\n\na/b/c\nlast"
    "Legacy" "old" rfl (by decide) (by decide)

/-! ## Pagination of the projects -/

theorem getAllProjects_page_eq (exclusionList : ExclusionList)
    (value : List TeamProjectReference) :
    ∀ (allProjects : List TeamProjectReference) (excludedCount : Nat),
      getAllProjects_page exclusionList value allProjects excludedCount =
        (allProjects ++ value.filter (fun p => !isProjectExcluded exclusionList p.Name),
          excludedCount + value.countP fun p => isProjectExcluded exclusionList p.Name) := by
  induction value with
  | nil => intro a e; simp [getAllProjects_page]
  | cons project rest ih =>
    intro a e
    unfold getAllProjects_page
    by_cases hx : isProjectExcluded exclusionList project.Name = true
    · rw [if_pos hx, ih]
      simp [hx, List.countP_cons]
      omega
    · rw [if_neg hx, ih]
      simp [hx, List.countP_cons]

theorem getAllProjects_loop_serves (coreClient : CoreClient) (exclusionList : ExclusionList)
    (pages : List GetProjectsResponseValue) :
    ∀ (fuel : Nat) (token : String) (allProjects : List TeamProjectReference)
      (excludedCount : Nat), ServesPages coreClient token pages → pages.length ≤ fuel →
      getAllProjects_loop coreClient exclusionList fuel token allProjects excludedCount =
        some (allProjects ++ (pages.flatMap fun page => page.Value).filter
            (fun p => !isProjectExcluded exclusionList p.Name),
          excludedCount + (pages.flatMap fun page => page.Value).countP
            (fun p => isProjectExcluded exclusionList p.Name), none) := by
  induction pages with
  | nil => intro fuel token a e h; exact absurd h (by simp [ServesPages])
  | cons page rest ih =>
    intro fuel token a e h hfuel
    cases fuel with
    | zero => simp at hfuel
    | succ fuel =>
      cases rest with
      | nil =>
        simp only [ServesPages] at h
        unfold getAllProjects_loop
        simp only [h.1, getAllProjects_page_eq, h.2, if_true]
        simp
      | cons next rest =>
        simp only [ServesPages] at h
        unfold getAllProjects_loop
        simp only [h.1, getAllProjects_page_eq, if_neg h.2.1]
        rw [ih fuel page.ContinuationToken _ _ h.2.2 (by simpa using hfuel)]
        simp [List.flatMap_cons, List.countP_append, add_assoc]

theorem getAllProjects_loop_fails (coreClient : CoreClient) (exclusionList : ExclusionList)
    (err : Error) (pages : List GetProjectsResponseValue) :
    ∀ (fuel : Nat) (token : String) (allProjects : List TeamProjectReference)
      (excludedCount : Nat), FailsAfterPages coreClient err token pages →
      pages.length + 1 ≤ fuel →
      getAllProjects_loop coreClient exclusionList fuel token allProjects excludedCount =
        some ([], 0, some err) := by
  induction pages with
  | nil =>
    intro fuel token a e h hfuel
    cases fuel with
    | zero => simp at hfuel
    | succ fuel =>
      simp only [FailsAfterPages] at h
      unfold getAllProjects_loop
      simp only [h]
  | cons page rest ih =>
    intro fuel token a e h hfuel
    cases fuel with
    | zero => simp at hfuel
    | succ fuel =>
      simp only [FailsAfterPages] at h
      unfold getAllProjects_loop
      simp only [h.1, getAllProjects_page_eq, if_neg h.2.1]
      exact ih fuel page.ContinuationToken _ _ h.2.2 (by simpa using hfuel)

/-- C6: when the service serves a finite sequence of pages, each but the last
with a non-empty continuation token and the last with the empty one,
`getAllProjects` returns, with a nil error, the projects of all the pages whose
name is not excluded, in page order, and the number of excluded projects; the
two add up to the number of projects on all the pages. When the pages each carry
a non-empty token and the request after them fails, it returns `(nil, 0, err)`. -/
theorem getAllProjects_pages (coreClient : CoreClient) (exclusionList : ExclusionList)
    (pages : List GetProjectsResponseValue) (fuel : Nat) :
    (ServesPages coreClient "" pages → pages.length ≤ fuel →
        ∃ (projects : List TeamProjectReference) (excludedCount : Nat),
          getAllProjects fuel coreClient exclusionList = some (projects, excludedCount, none) ∧
          projects = (pages.flatMap fun page => page.Value).filter
            (fun p => !isProjectExcluded exclusionList p.Name) ∧
          excludedCount = (pages.flatMap fun page => page.Value).countP
            (fun p => isProjectExcluded exclusionList p.Name) ∧
          projects.length + excludedCount = (pages.flatMap fun page => page.Value).length) ∧
      ∀ err : Error, FailsAfterPages coreClient err "" pages → pages.length + 1 ≤ fuel →
        getAllProjects fuel coreClient exclusionList = some ([], 0, some err) := by
  constructor
  · intro h hfuel
    refine ⟨_, _, ?_, rfl, rfl, ?_⟩
    · unfold getAllProjects
      rw [getAllProjects_loop_serves coreClient exclusionList pages fuel "" [] 0 h hfuel]
      simp
    · rw [← List.countP_eq_length_filter]
      have := List.length_eq_countP_add_countP
        (fun p => isProjectExcluded exclusionList p.Name) (pages.flatMap fun page => page.Value)
      simp only [Bool.not_eq_true] at this
      rw [this, Nat.add_comm]
      congr 1
      apply List.countP_congr
      intro p _
      simp
  · intro err h hfuel
    unfold getAllProjects
    exact getAllProjects_loop_fails coreClient exclusionList err pages fuel "" [] 0 h hfuel

/-- C6 on `samplePages`, with the project `Legacy` excluded: the projects `Alpha`
and `Beta` are returned and one project is counted as excluded; and on
`failingCoreClient`, whose second request fails. -/
theorem getAllProjects_pages_witness :
    getAllProjects 2 sampleCoreClient sampleExclusionList =
        some ([⟨"1", "Alpha"⟩, ⟨"3", "Beta"⟩], 1, none) ∧
      (∃ (projects : List TeamProjectReference) (excludedCount : Nat),
        getAllProjects 2 sampleCoreClient sampleExclusionList =
          some (projects, excludedCount, none) ∧
        projects = (samplePages.flatMap fun page => page.Value).filter
          (fun p => !isProjectExcluded sampleExclusionList p.Name) ∧
        excludedCount = (samplePages.flatMap fun page => page.Value).countP
          (fun p => isProjectExcluded sampleExclusionList p.Name) ∧
        projects.length + excludedCount =
          (samplePages.flatMap fun page => page.Value).length) ∧
      getAllProjects 2 failingCoreClient sampleExclusionList =
        some ([], 0, some "503 service unavailable") :=
  ⟨by decide,
    (getAllProjects_pages sampleCoreClient sampleExclusionList samplePages 2).1
      ⟨rfl, by decide, rfl, rfl⟩ (by decide),
    (getAllProjects_pages failingCoreClient sampleExclusionList (samplePages.take 1) 2).2
      "503 service unavailable" ⟨rfl, by decide, rfl⟩ (by decide)⟩

/-! ## Counting the commits of a branch -/

theorem range_succ_map_add (skip k : Nat) :
    (List.range (k + 1)).map (fun j => skip + 100 * j) =
      skip :: (List.range k).map (fun j => skip + 100 + 100 * j) := by
  rw [List.range_succ_eq_map, List.map_cons, List.map_map]
  simp only [Nat.mul_zero, Nat.add_zero, List.cons.injEq, true_and]
  apply List.map_congr_left
  intro j _
  simp only [Function.comp_apply]
  omega

theorem getCommitCount_loop_slices (gitClient : GitClient)
    (projectID repoID branchName sinceStr : String) (commits : List GitCommitRef)
    (hclient : ∀ top skip, gitClient.GetCommits projectID repoID branchName sinceStr top skip =
      .ok ((commits.drop skip).take top)) :
    ∀ (fuel totalCommits skip : Nat) (requests : List Nat),
      (commits.length - skip) / 100 + 1 ≤ fuel →
      getCommitCount_loop gitClient projectID repoID branchName sinceStr 100 fuel totalCommits
          skip requests =
        some (totalCommits + (commits.length - skip), none,
          requests ++ (List.range ((commits.length - skip) / 100 + 1)).map
            fun j => skip + 100 * j) := by
  intro fuel
  induction fuel with
  | zero => intro t s r h; omega
  | succ fuel ih =>
    intro t s r h
    unfold getCommitCount_loop
    simp only [hclient, List.length_take, List.length_drop]
    by_cases hlt : min 100 (commits.length - s) < 100
    · rw [if_pos hlt]
      have hlt2 : commits.length - s < 100 := by omega
      have hdiv : (commits.length - s) / 100 = 0 := Nat.div_eq_of_lt hlt2
      have hmin : min 100 (commits.length - s) = commits.length - s := by omega
      rw [hdiv, hmin]
      simp [List.range_succ]
    · rw [if_neg hlt]
      have hge : 100 ≤ commits.length - s := by omega
      have hmin : min 100 (commits.length - s) = 100 := by omega
      have hdiv : (commits.length - s) / 100 = (commits.length - (s + 100)) / 100 + 1 := by
        omega
      have hsum : t + 100 + (commits.length - (s + 100)) = t + (commits.length - s) := by omega
      rw [hmin, ih (t + 100) (s + 100) (r ++ [s]) (by omega), hsum, hdiv,
        range_succ_map_add s]
      simp

theorem getCommitCount_loop_fails (gitClient : GitClient)
    (projectID repoID branchName sinceStr : String) (err : Error) :
    ∀ (k fuel totalCommits skip : Nat) (requests : List Nat),
      (∀ j < k, ∃ commits, gitClient.GetCommits projectID repoID branchName sinceStr 100
        (skip + 100 * j) = .ok commits ∧ 100 ≤ commits.length) →
      gitClient.GetCommits projectID repoID branchName sinceStr 100 (skip + 100 * k) =
        .error err →
      k + 1 ≤ fuel →
      getCommitCount_loop gitClient projectID repoID branchName sinceStr 100 fuel totalCommits
          skip requests =
        some (0, some err, requests ++ (List.range (k + 1)).map fun j => skip + 100 * j) := by
  intro k
  induction k with
  | zero =>
    intro fuel t s r _ herr hfuel
    cases fuel with
    | zero => omega
    | succ fuel =>
      unfold getCommitCount_loop
      simp only [Nat.mul_zero, Nat.add_zero] at herr
      simp [herr, List.range_succ]
  | succ k ih =>
    intro fuel t s r hok herr hfuel
    cases fuel with
    | zero => omega
    | succ fuel =>
      unfold getCommitCount_loop
      obtain ⟨commits, hc, hlen⟩ := hok 0 (Nat.succ_pos k)
      simp only [Nat.mul_zero, Nat.add_zero] at hc
      simp only [hc, if_neg (Nat.not_lt.mpr hlen)]
      rw [ih fuel (t + commits.length) (s + 100) (r ++ [s]) ?_ ?_ (by omega),
        range_succ_map_add s (k + 1)]
      · simp
      · intro j hj
        have := hok (j + 1) (by omega)
        rwa [show s + 100 * (j + 1) = s + 100 + 100 * j by omega] at this
      · rwa [show s + 100 * (k + 1) = s + 100 + 100 * k by omega] at herr

/-- C7: when the service answers each request with the commits at the positions
`[skip, skip + top)` of a list of `n` commits, `getCommitCount` returns `n`
with a nil error after the `n / 100 + 1` requests with `skip` equal to 0, 100,
200 and so on. When the first `k` requests are answered with full pages and the
next request fails, it returns `(0, err)`. -/
theorem getCommitCount_pages (gitClient : GitClient)
    (projectID repoID branchName sinceStr : String) (fuel : Nat) :
    (∀ commits : List GitCommitRef,
        (∀ top skip, gitClient.GetCommits projectID repoID branchName sinceStr top skip =
          .ok ((commits.drop skip).take top)) →
        commits.length / 100 + 1 ≤ fuel →
        getCommitCount fuel gitClient projectID repoID branchName sinceStr =
          some (commits.length, none,
            (List.range (commits.length / 100 + 1)).map fun j => 100 * j)) ∧
      ∀ (k : Nat) (err : Error),
        (∀ j < k, ∃ commits, gitClient.GetCommits projectID repoID branchName sinceStr 100
          (100 * j) = .ok commits ∧ 100 ≤ commits.length) →
        gitClient.GetCommits projectID repoID branchName sinceStr 100 (100 * k) = .error err →
        k + 1 ≤ fuel →
        getCommitCount fuel gitClient projectID repoID branchName sinceStr =
          some (0, some err, (List.range (k + 1)).map fun j => 100 * j) := by
  constructor
  · intro commits hclient hfuel
    unfold getCommitCount
    have := getCommitCount_loop_slices gitClient projectID repoID branchName sinceStr commits
      hclient fuel 0 0 [] (by simpa using hfuel)
    simpa using this
  · intro k err hok herr hfuel
    unfold getCommitCount
    have := getCommitCount_loop_fails gitClient projectID repoID branchName sinceStr err k fuel
      0 0 [] (by simpa using hok) (by simpa using herr) hfuel
    simpa using this

set_option maxRecDepth 100000 in
/-- C7 on the branch `main` of `sampleGitClient`, which holds 205 commits: three
requests, with `skip` 0, 100 and 200; and on `failingGitClient`, whose second
request fails. -/
theorem getCommitCount_pages_witness :
    getCommitCount 3 sampleGitClient "Alpha" "app" "refs/heads/main" "2024-01-01T00:00:00Z" =
        some (205, none, [0, 100, 200]) ∧
      getCommitCount 3 failingGitClient "Alpha" "app" "refs/heads/main" "2024-01-01T00:00:00Z" =
        some (0, some "503 service unavailable", [0, 100]) :=
  ⟨(getCommitCount_pages sampleGitClient "Alpha" "app" "refs/heads/main"
      "2024-01-01T00:00:00Z" 3).1 sampleCommits (fun _ _ => rfl) (by decide),
    (getCommitCount_pages failingGitClient "Alpha" "app" "refs/heads/main"
      "2024-01-01T00:00:00Z" 3).2 1 "503 service unavailable"
      (fun j hj => ⟨sampleCommits.take 100, by
        obtain rfl : j = 0 := by omega
        rfl, by decide⟩)
      rfl (by decide)⟩

/-! ## The most active branch -/

theorem getMostImportantBranch_loop_spec (fuel : Nat) (gitClient : GitClient)
    (projectID repoID sinceStr defaultBranch : String) (nbranches : Nat)
    (count : GitBranchStats → Nat) (rest : List GitBranchStats) :
    ∀ (mostImportantBranch : String) (maxCommits nbrbranches : Nat), rest ≠ [] →
      (∀ b ∈ rest, ∃ requests, getCommitCount fuel gitClient projectID repoID b.Name sinceStr =
        some (count b, none, requests)) →
      ∃ name, getMostImportantBranch_loop fuel gitClient projectID repoID sinceStr defaultBranch
          nbranches rest mostImportantBranch maxCommits 0 nbrbranches =
          some (name, 0, nbranches, none) ∧
        ((∀ x ∈ rest, count x ≤ maxCommits) →
          name = if maxCommits = 0 then TrimPrefix defaultBranch REF else mostImportantBranch) ∧
        ((∃ x ∈ rest, maxCommits < count x) →
          ∃ pre b post, rest = pre ++ b :: post ∧ (∀ x ∈ pre, count x < count b) ∧
            maxCommits < count b ∧ (∀ x ∈ post, count x ≤ count b) ∧
            name = TrimPrefix b.Name REF) := by
  induction rest with
  | nil => intro m c n h; exact absurd rfl h
  | cons x xs ih =>
    intro m c n _ hcount
    obtain ⟨requests, hx⟩ := hcount x (List.mem_cons_self x xs)
    have hxs : ∀ b ∈ xs, ∃ requests,
        getCommitCount fuel gitClient projectID repoID b.Name sinceStr =
          some (count b, none, requests) :=
      fun b hb => hcount b (List.mem_cons_of_mem x hb)
    unfold getMostImportantBranch_loop
    simp only [hx, gt_iff_lt, decide_eq_true_eq, ite_self]
    cases xs with
    | nil =>
      simp only [getMostImportantBranch_loop, List.mem_singleton, forall_eq, exists_eq_left]
      refine ⟨_, rfl, ?_, ?_⟩
      · intro hle
        rw [if_neg (Nat.not_lt.mpr hle), if_neg (Nat.not_lt.mpr hle)]
      · intro hlt
        refine ⟨[], x, [], rfl, by simp, hlt, by simp, ?_⟩
        rw [if_pos hlt, if_pos hlt, if_neg (by omega)]
    | cons y ys =>
      obtain ⟨name, hname, hall, hex⟩ := ih
        (if (if c < count x then count x else c) = 0 then TrimPrefix defaultBranch REF
          else if c < count x then TrimPrefix x.Name REF else m)
        (if c < count x then count x else c) nbranches (by simp) hxs
      refine ⟨name, hname, ?_, ?_⟩
      · intro hle
        have hxle : count x ≤ c := hle x (List.mem_cons_self x _)
        have hrest : ∀ z ∈ y :: ys, count z ≤ c := fun z hz => hle z (List.mem_cons_of_mem x hz)
        rw [if_neg (Nat.not_lt.mpr hxle)] at hall
        rw [hall hrest]
        by_cases hc : c = 0
        · simp [hc]
        · simp [hc, Nat.not_lt.mpr hxle]
      · intro hlt
        by_cases hxc : c < count x
        · rw [if_pos hxc] at hall hex
          by_cases hbig : ∃ z ∈ y :: ys, count x < count z
          · obtain ⟨pre, b, post, hsplit, hpre, hb, hpost, hn⟩ := hex hbig
            refine ⟨x :: pre, b, post, by rw [hsplit]; rfl, ?_, by omega, hpost, hn⟩
            intro z hz
            rcases List.mem_cons.mp hz with rfl | hz
            · exact hb
            · exact hpre z hz
          · have hle : ∀ z ∈ y :: ys, count z ≤ count x := by
              intro z hz
              by_contra hcon
              exact hbig ⟨z, hz, Nat.lt_of_not_le hcon⟩
            refine ⟨[], x, y :: ys, rfl, by simp, hxc, hle, ?_⟩
            rw [hall hle, if_neg (by omega), if_neg (by omega), if_pos hxc]
        · rw [if_neg hxc] at hex
          have hbig : ∃ z ∈ y :: ys, c < count z := by
            obtain ⟨z, hz, hzc⟩ := hlt
            rcases List.mem_cons.mp hz with rfl | hz
            · exact absurd hzc hxc
            · exact ⟨z, hz, hzc⟩
          obtain ⟨pre, b, post, hsplit, hpre, hb, hpost, hn⟩ := hex hbig
          refine ⟨x :: pre, b, post, by rw [hsplit]; rfl, ?_, hb, hpost, hn⟩
          intro z hz
          rcases List.mem_cons.mp hz with rfl | hz
          · omega
          · exact hpre z hz

/-- C8: for a repository whose list of branches is not empty, when the service
answers and `DefaultB` is false, `getMostImportantBranch` returns with a nil
error the number of branches and a name: the default branch of the repository
without the prefix `refs/heads/` when no branch has a commit in the period, and
otherwise the name without that prefix of the first branch of the list whose
number of commits is the greatest. -/
theorem getMostImportantBranch_most_active (fuel : Nat) (since : Int → String)
    (gitClient : GitClient) (projectID repoID : String) (periode : Int) (repo : GitRepository)
    (branches : List GitBranchStats) (count : GitBranchStats → Nat)
    (hrepo : gitClient.GetRepository projectID repoID = .ok repo)
    (hbranches : gitClient.GetBranches projectID repoID = .ok branches)
    (hne : branches ≠ [])
    (hcount : ∀ b ∈ branches, ∃ requests,
      getCommitCount fuel gitClient projectID repoID b.Name (since periode) =
        some (count b, none, requests)) :
    ∃ name, getMostImportantBranch fuel since gitClient projectID repoID periode false =
        some (name, 0, branches.length, none) ∧
      ((∀ b ∈ branches, count b = 0) → name = TrimPrefix repo.DefaultBranch "refs/heads/") ∧
      ((∃ b ∈ branches, count b ≠ 0) →
        ∃ pre b post, branches = pre ++ b :: post ∧ (∀ x ∈ pre, count x < count b) ∧
          (∀ x ∈ post, count x ≤ count b) ∧ name = TrimPrefix b.Name "refs/heads/") := by
  obtain ⟨name, hname, hall, hex⟩ := getMostImportantBranch_loop_spec fuel gitClient projectID
    repoID (since periode) repo.DefaultBranch branches.length count branches "" 0 0 hne hcount
  refine ⟨name, ?_, ?_, ?_⟩
  · unfold getMostImportantBranch
    simp only [hrepo, hbranches, Bool.not_false, if_true]
    exact hname
  · intro h0
    have := hall (fun x hx => Nat.le_of_eq (h0 x hx))
    simpa [REF] using this
  · rintro ⟨b, hb, hb0⟩
    obtain ⟨pre, b1, post, hsplit, hpre, _, hpost, hn⟩ := hex ⟨b, hb, Nat.pos_of_ne_zero hb0⟩
    exact ⟨pre, b1, post, hsplit, hpre, hpost, by simpa [REF] using hn⟩

set_option maxRecDepth 100000 in
/-- C8 on the repository `app` of `sampleGitClient`: the branches `dev`,
`refs/heads/main` and `hotfix` hold 3, 205 and 3 commits, and the result is
`main` with 3 branches. -/
theorem getMostImportantBranch_most_active_witness :
    getMostImportantBranch 3 (fun _ => "2024-01-01T00:00:00Z") sampleGitClient "Alpha" "app"
        (-3) false = some ("main", 0, 3, none) ∧
      ∃ name, getMostImportantBranch 3 (fun _ => "2024-01-01T00:00:00Z") sampleGitClient
          "Alpha" "app" (-3) false =
          some (name, 0, [(⟨"dev"⟩ : GitBranchStats), ⟨"refs/heads/main"⟩, ⟨"hotfix"⟩].length,
            none) ∧
        ((∀ b ∈ [(⟨"dev"⟩ : GitBranchStats), ⟨"refs/heads/main"⟩, ⟨"hotfix"⟩],
            (if b.Name = "refs/heads/main" then 205 else 3) = 0) →
          name = TrimPrefix "refs/heads/dev" "refs/heads/") ∧
        ((∃ b ∈ [(⟨"dev"⟩ : GitBranchStats), ⟨"refs/heads/main"⟩, ⟨"hotfix"⟩],
            (if b.Name = "refs/heads/main" then 205 else 3) ≠ 0) →
          ∃ pre b post,
            [(⟨"dev"⟩ : GitBranchStats), ⟨"refs/heads/main"⟩, ⟨"hotfix"⟩] = pre ++ b :: post ∧
            (∀ x ∈ pre, (if x.Name = "refs/heads/main" then 205 else 3) <
              (if b.Name = "refs/heads/main" then 205 else 3)) ∧
            (∀ x ∈ post, (if x.Name = "refs/heads/main" then 205 else 3) ≤
              (if b.Name = "refs/heads/main" then 205 else 3)) ∧
            name = TrimPrefix b.Name "refs/heads/") :=
  ⟨by decide,
    getMostImportantBranch_most_active 3 (fun _ => "2024-01-01T00:00:00Z") sampleGitClient
      "Alpha" "app" (-3) ⟨"id-app", "app", "refs/heads/dev", 50⟩
      [⟨"dev"⟩, ⟨"refs/heads/main"⟩, ⟨"hotfix"⟩]
      (fun b => if b.Name = "refs/heads/main" then 205 else 3) rfl rfl (by simp)
      (by
        intro b hb
        simp only [List.mem_cons, List.mem_singleton, List.not_mem_nil, or_false] at hb
        rcases hb with rfl | rfl | rfl
        · exact ⟨[0], by decide⟩
        · exact ⟨[0, 100, 200], by decide⟩
        · exact ⟨[0], by decide⟩)⟩

/-! ## The repositories of a project -/

theorem listReposForProject_loop_ok (parms : ParamsProjectAzure) (projectKey : String)
    (gitClient : GitClient) (repos : List GitRepository) :
    ∀ (allRepos : List GitRepository) (archivedCount emptyCount excludedCount : Nat)
      (probed : List String),
      (∀ r ∈ repos, isRepoExcluded parms.Exclusionlist projectKey r.Name = false →
        (isRepoEmpty gitClient projectKey r.Id).2 = none) →
      listReposForProject_loop parms projectKey gitClient repos allRepos archivedCount
          emptyCount excludedCount probed =
        ⟨archivedCount,
          emptyCount + repos.countP (fun r =>
            !isRepoExcluded parms.Exclusionlist projectKey r.Name &&
              (isRepoEmpty gitClient projectKey r.Id).1),
          excludedCount + repos.countP (fun r =>
            isRepoExcluded parms.Exclusionlist projectKey r.Name),
          allRepos ++ repos.filter (fun r =>
            !isRepoExcluded parms.Exclusionlist projectKey r.Name &&
              !(isRepoEmpty gitClient projectKey r.Id).1),
          none,
          probed ++ (repos.filter (fun r =>
            !isRepoExcluded parms.Exclusionlist projectKey r.Name)).map GitRepository.Id⟩ := by
  induction repos with
  | nil => intro a ar em ex pr _; simp [listReposForProject_loop]
  | cons repo rest ih =>
    intro a ar em ex pr hok
    have hrest : ∀ r ∈ rest, isRepoExcluded parms.Exclusionlist projectKey r.Name = false →
        (isRepoEmpty gitClient projectKey r.Id).2 = none :=
      fun r hr => hok r (List.mem_cons_of_mem repo hr)
    unfold listReposForProject_loop
    by_cases hx : isRepoExcluded parms.Exclusionlist projectKey repo.Name = true
    · simp only [hx, if_true]
      rw [ih _ _ _ _ _ hrest]
      simp [hx, List.countP_cons, Nat.add_assoc, Nat.add_comm 1]
    · have hx0 : isRepoExcluded parms.Exclusionlist projectKey repo.Name = false := by
        simpa using hx
      have herr := hok repo (List.mem_cons_self repo rest) hx0
      cases hp : isRepoEmpty gitClient projectKey repo.Id with
      | mk isEmpty err =>
        rw [hp] at herr
        simp only at herr
        subst herr
        cases isEmpty with
        | true =>
          simp only [hx0, hp, Bool.false_eq_true, if_false, if_true]
          rw [ih _ _ _ _ _ hrest]
          simp [hx0, hp, List.countP_cons, Nat.add_assoc, Nat.add_comm 1]
        | false =>
          simp only [hx0, hp, Bool.false_eq_true, if_false]
          rw [ih _ _ _ _ _ hrest]
          simp [hx0, hp, List.countP_cons]

theorem listReposForProject_loop_fails (parms : ParamsProjectAzure) (projectKey : String)
    (gitClient : GitClient) (repos : List GitRepository) :
    ∀ (allRepos : List GitRepository) (archivedCount emptyCount excludedCount : Nat)
      (probed : List String),
      (∃ r ∈ repos, isRepoExcluded parms.Exclusionlist projectKey r.Name = false ∧
        (isRepoEmpty gitClient projectKey r.Id).2 ≠ none) →
      ∃ (err : Error) (probes : List String),
        listReposForProject_loop parms projectKey gitClient repos allRepos archivedCount
          emptyCount excludedCount probed = ⟨0, 0, 0, [], some err, probes⟩ ∧
        ∃ r ∈ repos, isRepoExcluded parms.Exclusionlist projectKey r.Name = false ∧
          (isRepoEmpty gitClient projectKey r.Id).2 = some err := by
  induction repos with
  | nil => intro a ar em ex pr h; obtain ⟨r, hr, _⟩ := h; cases hr
  | cons repo rest ih =>
    intro a ar em ex pr h
    unfold listReposForProject_loop
    by_cases hx : isRepoExcluded parms.Exclusionlist projectKey repo.Name = true
    · have hrest : ∃ r ∈ rest, isRepoExcluded parms.Exclusionlist projectKey r.Name = false ∧
          (isRepoEmpty gitClient projectKey r.Id).2 ≠ none := by
        obtain ⟨r, hr, hr0, hre⟩ := h
        rcases List.mem_cons.mp hr with rfl | hr
        · rw [hx] at hr0; cases hr0
        · exact ⟨r, hr, hr0, hre⟩
      simp only [hx, if_true]
      obtain ⟨err, probes, hloop, r, hr, hr0, hre⟩ := ih a ar em (ex + 1) pr hrest
      exact ⟨err, probes, hloop, r, List.mem_cons_of_mem repo hr, hr0, hre⟩
    · have hx0 : isRepoExcluded parms.Exclusionlist projectKey repo.Name = false := by
        simpa using hx
      cases hp : isRepoEmpty gitClient projectKey repo.Id with
      | mk isEmpty err =>
        cases err with
        | some e =>
          simp only [hx0, hp, Bool.false_eq_true, if_false]
          exact ⟨e, _, rfl, repo, List.mem_cons_self repo rest, hx0, by rw [hp]⟩
        | none =>
          have hrest : ∃ r ∈ rest,
              isRepoExcluded parms.Exclusionlist projectKey r.Name = false ∧
                (isRepoEmpty gitClient projectKey r.Id).2 ≠ none := by
            obtain ⟨r, hr, hr0, hre⟩ := h
            rcases List.mem_cons.mp hr with rfl | hr
            · rw [hp] at hre; exact absurd rfl hre
            · exact ⟨r, hr, hr0, hre⟩
          simp only [hx0, hp, Bool.false_eq_true, if_false]
          cases isEmpty with
          | true =>
            simp only [if_true]
            obtain ⟨err, probes, hloop, r, hr, hr0, hre⟩ := ih a ar (em + 1) ex _ hrest
            exact ⟨err, probes, hloop, r, List.mem_cons_of_mem repo hr, hr0, hre⟩
          | false =>
            simp only [Bool.false_eq_true, if_false]
            obtain ⟨err, probes, hloop, r, hr, hr0, hre⟩ := ih _ ar em ex _ hrest
            exact ⟨err, probes, hloop, r, List.mem_cons_of_mem repo hr, hr0, hre⟩

theorem listReposForProject_loop_probed (parms : ParamsProjectAzure) (projectKey : String)
    (gitClient : GitClient) (repos : List GitRepository) :
    ∀ (allRepos : List GitRepository) (archivedCount emptyCount excludedCount : Nat)
      (probed : List String),
      ∀ id ∈ (listReposForProject_loop parms projectKey gitClient repos allRepos archivedCount
          emptyCount excludedCount probed).probed,
        id ∈ probed ∨ ∃ r ∈ repos, r.Id = id ∧
          isRepoExcluded parms.Exclusionlist projectKey r.Name = false := by
  induction repos with
  | nil => intro a ar em ex pr id hid; left; simpa [listReposForProject_loop] using hid
  | cons repo rest ih =>
    intro a ar em ex pr id hid
    unfold listReposForProject_loop at hid
    have lift : (id ∈ pr ++ [repo.Id] ∨ ∃ r ∈ rest, r.Id = id ∧
        isRepoExcluded parms.Exclusionlist projectKey r.Name = false) →
        isRepoExcluded parms.Exclusionlist projectKey repo.Name = false →
        id ∈ pr ∨ ∃ r ∈ repo :: rest, r.Id = id ∧
          isRepoExcluded parms.Exclusionlist projectKey r.Name = false := by
      intro h hx0
      rcases h with h | ⟨r, hr, hrid, hr0⟩
      · rcases List.mem_append.mp h with h | h
        · exact Or.inl h
        · exact Or.inr ⟨repo, List.mem_cons_self repo rest,
            (List.mem_singleton.mp h).symm, hx0⟩
      · exact Or.inr ⟨r, List.mem_cons_of_mem repo hr, hrid, hr0⟩
    by_cases hx : isRepoExcluded parms.Exclusionlist projectKey repo.Name = true
    · simp only [hx, if_true] at hid
      rcases ih _ _ _ _ _ id hid with h | ⟨r, hr, hrid, hr0⟩
      · exact Or.inl h
      · exact Or.inr ⟨r, List.mem_cons_of_mem repo hr, hrid, hr0⟩
    · have hx0 : isRepoExcluded parms.Exclusionlist projectKey repo.Name = false := by
        simpa using hx
      cases hp : isRepoEmpty gitClient projectKey repo.Id with
      | mk isEmpty err =>
        simp only [hp] at hid
        cases err with
        | some e =>
          simp only [hx0, Bool.false_eq_true, if_false] at hid
          exact lift (Or.inl hid) hx0
        | none =>
          cases isEmpty with
          | true =>
            simp only [hx0, Bool.false_eq_true, if_false, if_true] at hid
            exact lift (ih _ _ _ _ _ id hid) hx0
          | false =>
            simp only [hx0, Bool.false_eq_true, if_false] at hid
            exact lift (ih _ _ _ _ _ id hid) hx0

theorem length_filter_add_countP {α : Type} (excluded empty : α → Bool) (l : List α) :
    (l.filter fun r => !excluded r && !empty r).length + l.countP excluded +
      l.countP (fun r => !excluded r && empty r) = l.length := by
  induction l with
  | nil => rfl
  | cons x xs ih =>
    simp only [List.filter_cons, List.countP_cons, List.length_cons]
    cases excluded x <;> cases empty x <;> simp <;> omega

/-- C9: when the service lists the repositories of the project and answers
every emptiness probe of a repository that is not excluded,
`listReposForProject` returns with a nil error the repositories that are
neither excluded nor empty, in their order, the number of excluded ones and the
number of empty ones, and the three add up to the number of repositories of the
project. Every probe it makes is for a repository that is not excluded. When a
probe of a repository that is not excluded fails, it returns
`(0, 0, 0, nil, err)` with the error of such a probe. -/
theorem listReposForProject_partition (parms : ParamsProjectAzure) (projectKey : String)
    (gitClient : GitClient) (repos : List GitRepository)
    (hrepos : gitClient.GetRepositories projectKey = .ok repos) :
    ((∀ r ∈ repos, isRepoExcluded parms.Exclusionlist projectKey r.Name = false →
          (isRepoEmpty gitClient projectKey r.Id).2 = none) →
        (listReposForProject parms projectKey gitClient).err = none ∧
        (listReposForProject parms projectKey gitClient).allRepos =
          repos.filter (fun r => !isRepoExcluded parms.Exclusionlist projectKey r.Name &&
            !(isRepoEmpty gitClient projectKey r.Id).1) ∧
        (listReposForProject parms projectKey gitClient).excludedCount =
          repos.countP (fun r => isRepoExcluded parms.Exclusionlist projectKey r.Name) ∧
        (listReposForProject parms projectKey gitClient).emptyCount =
          repos.countP (fun r => !isRepoExcluded parms.Exclusionlist projectKey r.Name &&
            (isRepoEmpty gitClient projectKey r.Id).1) ∧
        (listReposForProject parms projectKey gitClient).allRepos.length +
            (listReposForProject parms projectKey gitClient).excludedCount +
            (listReposForProject parms projectKey gitClient).emptyCount = repos.length) ∧
      (∀ id ∈ (listReposForProject parms projectKey gitClient).probed,
        ∃ r ∈ repos, r.Id = id ∧
          isRepoExcluded parms.Exclusionlist projectKey r.Name = false) ∧
      ((∃ r ∈ repos, isRepoExcluded parms.Exclusionlist projectKey r.Name = false ∧
          (isRepoEmpty gitClient projectKey r.Id).2 ≠ none) →
        ∃ (err : Error) (probes : List String),
          listReposForProject parms projectKey gitClient = ⟨0, 0, 0, [], some err, probes⟩ ∧
          ∃ r ∈ repos, isRepoExcluded parms.Exclusionlist projectKey r.Name = false ∧
            (isRepoEmpty gitClient projectKey r.Id).2 = some err) := by
  have hdef : listReposForProject parms projectKey gitClient =
      listReposForProject_loop parms projectKey gitClient repos [] 0 0 0 [] := by
    simp only [listReposForProject, hrepos]
  refine ⟨?_, ?_, ?_⟩
  · intro hok
    rw [hdef, listReposForProject_loop_ok parms projectKey gitClient repos [] 0 0 0 [] hok]
    simp only [List.nil_append, Nat.zero_add, true_and]
    exact length_filter_add_countP _ _ repos
  · intro id hid
    rw [hdef] at hid
    rcases listReposForProject_loop_probed parms projectKey gitClient repos [] 0 0 0 [] id hid
      with h | h
    · cases h
    · exact h
  · intro hfail
    rw [hdef]
    exact listReposForProject_loop_fails parms projectKey gitClient repos [] 0 0 0 [] hfail

/-- C9 on the project `Alpha`: with `sampleGitClient` the repository `old` is
excluded and not probed, `void` is empty and `app` is kept; with
`failingGitClient` the probe of `app` fails. -/
theorem listReposForProject_partition_witness :
    listReposForProject sampleParams "Alpha" sampleGitClient =
        ⟨0, 1, 1, [⟨"id-app", "app", "refs/heads/dev", 50⟩], none, ["id-app", "id-void"]⟩ ∧
      (listReposForProject sampleParams "Alpha" sampleGitClient).allRepos.length +
          (listReposForProject sampleParams "Alpha" sampleGitClient).excludedCount +
          (listReposForProject sampleParams "Alpha" sampleGitClient).emptyCount = 3 ∧
      ∃ (err : Error) (probes : List String),
        listReposForProject sampleParams "Alpha" failingGitClient =
          ⟨0, 0, 0, [], some err, probes⟩ ∧
        ∃ r ∈ [(⟨"id-old", "old", "refs/heads/master", 10⟩ : GitRepository),
            ⟨"id-app", "app", "refs/heads/dev", 50⟩, ⟨"id-void", "void", "", 0⟩],
          isRepoExcluded sampleParams.Exclusionlist "Alpha" r.Name = false ∧
            (isRepoEmpty failingGitClient "Alpha" r.Id).2 = some err :=
  ⟨by decide,
    ((listReposForProject_partition sampleParams "Alpha" sampleGitClient
      [⟨"id-old", "old", "refs/heads/master", 10⟩, ⟨"id-app", "app", "refs/heads/dev", 50⟩,
        ⟨"id-void", "void", "", 0⟩] rfl).1 (by decide)).2.2.2.2,
    (listReposForProject_partition sampleParams "Alpha" failingGitClient
      [⟨"id-old", "old", "refs/heads/master", 10⟩, ⟨"id-app", "app", "refs/heads/dev", 50⟩,
        ⟨"id-void", "void", "", 0⟩] rfl).2.2
      ⟨⟨"id-app", "app", "refs/heads/dev", 50⟩, by decide, by decide, by decide⟩⟩

end Getazure

end Gcloc

namespace Gcloc

/-! ## The counters of the analysis functions -/

namespace Main

open Strings

theorem AnalyseReposListB_loop_returned (env : AnalyseEnv)
    (DestinationResult user AccessToken Protocol trimmedURL : String)
    (repolist : List ProjectBranch) :
    ∀ (cpt : Nat) (log : List Event) (c : Nat),
      (AnalyseReposListB_loop env DestinationResult user AccessToken Protocol trimmedURL
        repolist cpt log).1 = .returned c → c = cpt + repolist.length := by
  induction repolist with
  | nil =>
    intro cpt log c h
    simp only [AnalyseReposListB_loop, Ending.returned.injEq] at h
    simp [h]
  | cons project rest ih =>
    intro cpt log c h
    unfold AnalyseReposListB_loop at h
    simp only at h
    split at h
    · cases h
    · rename_i gc hm
      simp only [hm, errOf, Option.isSome_none, Bool.false_eq_true, if_false] at h
      have := ih _ _ _ h
      simp only [List.length_cons]
      omega

theorem AnalyseReposListB_loop_all (env : AnalyseEnv)
    (DestinationResult user AccessToken Protocol trimmedURL : String)
    (hnew : ∀ params, ∃ gc, env.NewGCloc params = .ok gc) (repolist : List ProjectBranch) :
    ∀ (cpt : Nat) (log : List Event),
      (AnalyseReposListB_loop env DestinationResult user AccessToken Protocol trimmedURL
        repolist cpt log).1 = .returned (cpt + repolist.length) := by
  induction repolist with
  | nil => intro cpt log; simp [AnalyseReposListB_loop]
  | cons project rest ih =>
    intro cpt log
    unfold AnalyseReposListB_loop
    simp only
    obtain ⟨gc, hm⟩ := hnew
      ⟨Protocol ++ "://" ++ user ++ ":" ++ AccessToken ++ "@" ++ trimmedURL ++ "scm/" ++
          project.ProjectKey ++ "/" ++ project.RepoSlug ++ ".git",
        "Result_" ++ project.ProjectKey ++ "_" ++ project.RepoSlug ++ "_" ++ project.MainBranch,
        DestinationResult, project.MainBranch⟩
    simp only [hm, errOf, Option.isSome_none, Bool.false_eq_true, if_false]
    rw [ih]
    simp only [List.length_cons]
    congr 1
    omega

/-- C11: whenever `AnalyseReposListB` returns, the count it returns is the
length of the list of repositories, and it does return, with that count, when
every call of `gcloc.NewGCloc` succeeds; the outcome of the deletions of the
directories plays no part. -/
theorem AnalyseReposListB_count (env : AnalyseEnv)
    (DestinationResult user AccessToken Protocol URL DevOps : String)
    (repolist : List ProjectBranch) :
    (∀ cpt, (AnalyseReposListB env DestinationResult user AccessToken Protocol URL DevOps
        repolist).1 = .returned cpt → cpt = repolist.length) ∧
      ((∀ params, ∃ gc, env.NewGCloc params = .ok gc) →
        (AnalyseReposListB env DestinationResult user AccessToken Protocol URL DevOps
          repolist).1 = .returned repolist.length) := by
  constructor
  · intro cpt h
    have := AnalyseReposListB_loop_returned env DestinationResult user AccessToken Protocol
      (TrimPrefix URL "http://") repolist 0 _ cpt h
    omega
  · intro hnew
    have := AnalyseReposListB_loop_all env DestinationResult user AccessToken Protocol
      (TrimPrefix URL "http://") hnew repolist 0 [.print "\n🔎 Analysis of Repos ...\n"]
    simpa [AnalyseReposListB] using this

/-- C11 with `removeFailsEnv`, where the deletion of the directory of `alpha`
fails: the count for two repositories is 2. -/
theorem AnalyseReposListB_count_witness :
    (AnalyseReposListB removeFailsEnv "/r" "u" "t" "https" "http://h/" "bitbucket_dc"
        [⟨"P", "alpha", "main"⟩, ⟨"P", "beta", "main"⟩]).1 = .returned 2 ∧
      (2 : Nat) = [(⟨"P", "alpha", "main"⟩ : ProjectBranch), ⟨"P", "beta", "main"⟩].length :=
  ⟨(AnalyseReposListB_count removeFailsEnv "/r" "u" "t" "https" "http://h/" "bitbucket_dc"
      [⟨"P", "alpha", "main"⟩, ⟨"P", "beta", "main"⟩]).2 (fun params => ⟨_, rfl⟩),
    (AnalyseReposListB_count removeFailsEnv "/r" "u" "t" "https" "http://h/" "bitbucket_dc"
      [⟨"P", "alpha", "main"⟩, ⟨"P", "beta", "main"⟩]).1 2 (by decide)⟩

/-- C16 (the code departs from the claim): with `twoBranchesEnv` the one
repository of the list has two branches, and `AnalyseReposList` returns 2. -/
theorem AnalyseReposList_counts_branches :
    AnalyseReposList twoBranchesEnv "/r" "u" "t" "gitlab" "org" [⟨1, "alpha", "org/alpha"⟩] =
        (.returned 2,
          [.print "\nAnalyse Repository : alpha\n",
           .print "    - main\n",
           .print "Scan PATH : https://u:t@gitlab.com/org/alpha?ref=main\n",
           .run ⟨"https://u:t@gitlab.com/org/alpha?ref=main", "Result_alpha", "/r", ""⟩,
           .removeAll "/tmp/Result_alpha",
           .print "    - dev\n",
           .print "Scan PATH : https://u:t@gitlab.com/org/alpha?ref=dev\n",
           .run ⟨"https://u:t@gitlab.com/org/alpha?ref=dev", "Result_alpha", "/r", ""⟩,
           .removeAll "/tmp/Result_alpha"]) ∧
      [(⟨1, "alpha", "org/alpha"⟩ : Repository1)].length = 1 := by
  decide

/-- C13 (the code departs from the claim): for the project key `MY_PROJ`, the
repository `app` and the branch `main`, `AnalyseReposListB` names the report
`Result_MY_PROJ_app_main`, and from the file `Result_MY_PROJ_app_main.json` the
aggregation of `main` extracts the project `MY` and the repository `PROJ`. -/
theorem main_extracts_fields_of_key :
    AnalyseReposListB twoBranchesEnv "/r" "u" "t" "https" "http://h/" "bitbucket_dc"
        [⟨"MY_PROJ", "app", "main"⟩] =
        (.returned 1,
          [.print "\n🔎 Analysis of Repos ...\n",
           .run ⟨"https://u:t@h/scm/MY_PROJ/app.git", "Result_MY_PROJ_app_main", "/r", "main"⟩,
           .removeAll "/tmp/Result_MY_PROJ_app_main",
           .print "\t✅ The repository <app> has been analyzed\n"]) ∧
      main_aggregate underscoreReports "/r"
          [⟨"GlobalReport.txt", false⟩, ⟨"Result_MY_PROJ_app_main.json", false⟩] =
        some ⟨100, 100, "MY", "PROJ"⟩ := by
  decide

end Main

end Gcloc

namespace Gcloc

/-! ## The largest report -/

namespace Main

open Strings

theorem main_loopBody_max (env : ReportEnv) (d : String) (st st1 : Summary) (file : DirEntry)
    (result : Result) (h : reportOf env d file = some result)
    (hb : main_loopBody env d st file = some st1) :
    (st.maxTotalCodeLines < result.TotalCodeLines →
        st1.maxTotalCodeLines = result.TotalCodeLines ∧
        (Split (TrimSuffix file.Name ".json") '_')[1]? = some st1.maxProject ∧
        (Split (TrimSuffix file.Name ".json") '_')[2]? = some st1.maxRepo) ∧
      (result.TotalCodeLines ≤ st.maxTotalCodeLines →
        st1.maxTotalCodeLines = st.maxTotalCodeLines ∧ st1.maxProject = st.maxProject ∧
        st1.maxRepo = st.maxRepo) := by
  unfold reportOf at h
  unfold main_loopBody at hb
  by_cases hc : (!file.IsDir && HasSuffix file.Name ".json") = true
  · rw [if_pos hc] at h hb
    cases hr : env.ReadFile (env.Join d file.Name) with
    | error e => simp only [hr] at h; cases h
    | ok jsonData =>
      simp only [hr] at h hb
      cases hu : env.Unmarshal jsonData with
      | error e => simp only [hu] at h; cases h
      | ok res =>
        simp only [hu, Option.some.injEq] at h hb
        subst h
        by_cases hgt : res.TotalCodeLines > st.maxTotalCodeLines
        · rw [if_pos hgt] at hb
          split at hb
          · rename_i p1 p2 h1 h2
            cases hb
            exact ⟨fun _ => ⟨rfl, h1, h2⟩, fun hle => absurd hgt (not_lt.mpr hle)⟩
          · cases hb
        · rw [if_neg hgt] at hb
          cases hb
          exact ⟨fun hlt => absurd hlt hgt, fun _ => ⟨rfl, rfl, rfl⟩⟩
  · rw [if_neg hc] at h; cases h

theorem main_loop_max (env : ReportEnv) (d : String) (files : List DirEntry) :
    ∀ st st1 : Summary, main_loop env d files st = some st1 →
      ((∀ f ∈ files, ∀ r, reportOf env d f = some r →
          r.TotalCodeLines ≤ st.maxTotalCodeLines) →
        st1.maxTotalCodeLines = st.maxTotalCodeLines ∧ st1.maxProject = st.maxProject ∧
        st1.maxRepo = st.maxRepo) ∧
      ((∃ f ∈ files, ∃ r, reportOf env d f = some r ∧
          st.maxTotalCodeLines < r.TotalCodeLines) →
        ∃ pre f r post, files = pre ++ f :: post ∧ reportOf env d f = some r ∧
          (∀ x ∈ pre, ∀ rx, reportOf env d x = some rx →
            rx.TotalCodeLines < r.TotalCodeLines) ∧
          st.maxTotalCodeLines < r.TotalCodeLines ∧
          (∀ x ∈ post, ∀ rx, reportOf env d x = some rx →
            rx.TotalCodeLines ≤ r.TotalCodeLines) ∧
          st1.maxTotalCodeLines = r.TotalCodeLines ∧
          (Split (TrimSuffix f.Name ".json") '_')[1]? = some st1.maxProject ∧
          (Split (TrimSuffix f.Name ".json") '_')[2]? = some st1.maxRepo) := by
  induction files with
  | nil =>
    intro st st1 h
    simp only [main_loop, Option.some.injEq] at h
    subst h
    exact ⟨fun _ => ⟨rfl, rfl, rfl⟩, fun ⟨f, hf, _⟩ => absurd hf (List.not_mem_nil f)⟩
  | cons file files ih =>
    intro st st1 h
    simp only [main_loop] at h
    cases hb : main_loopBody env d st file with
    | none => rw [hb] at h; cases h
    | some st2 =>
      rw [hb] at h
      obtain ⟨ihall, ihex⟩ := ih st2 st1 h
      cases hr : reportOf env d file with
      | none =>
        rw [main_loopBody_skip env d st file hr] at hb
        cases hb
        constructor
        · intro hall
          exact ihall fun f hf r hfr => hall f (List.mem_cons_of_mem file hf) r hfr
        · rintro ⟨f, hf, r, hfr, hlt⟩
          have hf2 : f ∈ files := by
            rcases List.mem_cons.mp hf with rfl | hf
            · rw [hr] at hfr; cases hfr
            · exact hf
          obtain ⟨pre, g, rg, post, hsplit, hg, hpre, hgt, hpost, hmax, h1, h2⟩ :=
            ihex ⟨f, hf2, r, hfr, hlt⟩
          refine ⟨file :: pre, g, rg, post, by rw [hsplit]; rfl, hg, ?_, hgt, hpost, hmax, h1, h2⟩
          intro x hx rx hxr
          rcases List.mem_cons.mp hx with rfl | hx
          · rw [hr] at hxr; cases hxr
          · exact hpre x hx rx hxr
      | some r0 =>
        obtain ⟨hstep_gt, hstep_le⟩ := main_loopBody_max env d st st2 file r0 hr hb
        by_cases hgt0 : st.maxTotalCodeLines < r0.TotalCodeLines
        · obtain ⟨hm2, hp1, hp2⟩ := hstep_gt hgt0
          constructor
          · intro hall
            have := hall file (List.mem_cons_self file files) r0 hr
            omega
          · intro _
            by_cases hbig : ∃ f ∈ files, ∃ r, reportOf env d f = some r ∧
                st2.maxTotalCodeLines < r.TotalCodeLines
            · obtain ⟨pre, g, rg, post, hsplit, hg, hpre, hgt, hpost, hmax, h1, h2⟩ := ihex hbig
              refine ⟨file :: pre, g, rg, post, by rw [hsplit]; rfl, hg, ?_, by omega, hpost,
                hmax, h1, h2⟩
              intro x hx rx hxr
              rcases List.mem_cons.mp hx with rfl | hx
              · rw [hr] at hxr
                cases hxr
                omega
              · exact hpre x hx rx hxr
            · have hle : ∀ f ∈ files, ∀ r, reportOf env d f = some r →
                  r.TotalCodeLines ≤ st2.maxTotalCodeLines := by
                intro f hf r hfr
                by_contra hcon
                exact hbig ⟨f, hf, r, hfr, lt_of_not_le hcon⟩
              obtain ⟨e1, e2, e3⟩ := ihall hle
              refine ⟨[], file, r0, files, rfl, hr, ?_, hgt0, ?_, by omega, ?_, ?_⟩
              · intro x hx
                cases hx
              · intro x hx rx hxr
                have := hle x hx rx hxr
                omega
              · rw [e2]; exact hp1
              · rw [e3]; exact hp2
        · obtain ⟨hm2, hp1, hp2⟩ := hstep_le (not_lt.mp hgt0)
          constructor
          · intro hall
            obtain ⟨e1, e2, e3⟩ := ihall fun f hf r hfr => by
              have := hall f (List.mem_cons_of_mem file hf) r hfr
              omega
            exact ⟨by omega, by rw [e2, hp1], by rw [e3, hp2]⟩
          · rintro ⟨f, hf, r, hfr, hlt⟩
            have hf2 : f ∈ files := by
              rcases List.mem_cons.mp hf with rfl | hf
              · rw [hr] at hfr
                cases hfr
                exact absurd hlt hgt0
              · exact hf
            obtain ⟨pre, g, rg, post, hsplit, hg, hpre, hgt, hpost, hmax, h1, h2⟩ :=
              ihex ⟨f, hf2, r, hfr, by omega⟩
            refine ⟨file :: pre, g, rg, post, by rw [hsplit]; rfl, hg, ?_, by omega, hpost, hmax,
              h1, h2⟩
            intro x hx rx hxr
            rcases List.mem_cons.mp hx with rfl | hx
            · rw [hr] at hxr
              cases hxr
              omega
            · exact hpre x hx rx hxr

/-- C12: the aggregation of `main` ends when the name of each report, without
`.json`, has three fields or more between `_`. Whenever it ends: if no report
has a positive `TotalCodeLines`, `maxTotalCodeLines` is 0 and `maxProject` and
`maxRepo` are empty; if some report has one, there is a first file in directory
order whose `TotalCodeLines` is the greatest of all the reports,
`maxTotalCodeLines` is that number, and `maxProject` and `maxRepo` are the
second and the third field, between `_`, of its name without `.json`. -/
theorem main_maxTotalCodeLines (env : ReportEnv) (DestinationResult : String)
    (files : List DirEntry) :
    ((∀ file ∈ files, reportOf env DestinationResult file ≠ none →
        3 ≤ (Split (TrimSuffix file.Name ".json") '_').length) →
      ∃ st, main_aggregate env DestinationResult files = some st) ∧
    ∀ st : Summary, main_aggregate env DestinationResult files = some st →
      ((∀ f ∈ files, ∀ r, reportOf env DestinationResult f = some r → r.TotalCodeLines ≤ 0) →
        st.maxTotalCodeLines = 0 ∧ st.maxProject = "" ∧ st.maxRepo = "") ∧
      ((∃ f ∈ files, ∃ r, reportOf env DestinationResult f = some r ∧ 0 < r.TotalCodeLines) →
        ∃ pre f r post, files = pre ++ f :: post ∧
          reportOf env DestinationResult f = some r ∧
          (∀ x ∈ pre, ∀ rx, reportOf env DestinationResult x = some rx →
            rx.TotalCodeLines < r.TotalCodeLines) ∧
          (∀ x ∈ post, ∀ rx, reportOf env DestinationResult x = some rx →
            rx.TotalCodeLines ≤ r.TotalCodeLines) ∧
          0 < r.TotalCodeLines ∧
          st.maxTotalCodeLines = r.TotalCodeLines ∧
          (Split (TrimSuffix f.Name ".json") '_')[1]? = some st.maxProject ∧
          (Split (TrimSuffix f.Name ".json") '_')[2]? = some st.maxRepo) := by
  refine ⟨fun hnames => main_loop_some env DestinationResult files ⟨0, 0, "", ""⟩ hnames, ?_⟩
  intro st h
  obtain ⟨hall, hex⟩ := main_loop_max env DestinationResult files ⟨0, 0, "", ""⟩ st h
  constructor
  · intro h0
    exact hall h0
  · intro h1
    obtain ⟨pre, f, r, post, hsplit, hf, hpre, hgt, hpost, hmax, hp1, hp2⟩ := hex h1
    exact ⟨pre, f, r, post, hsplit, hf, hpre, hpost, hgt, hmax, hp1, hp2⟩

/-- C12 on the directory of `sampleReports`: the report of `alpha`, with 100
lines of code, is the largest, and the aggregation ends with the project `P` and
the repository `alpha`. -/
theorem main_maxTotalCodeLines_witness :
    (∃ st, main_aggregate sampleReports "/r" sampleFiles = some st) ∧
      main_aggregate sampleReports "/r" sampleFiles = some ⟨140, 100, "P", "alpha"⟩ ∧
      ∃ pre f r post, sampleFiles = pre ++ f :: post ∧
        reportOf sampleReports "/r" f = some r ∧
        (∀ x ∈ pre, ∀ rx, reportOf sampleReports "/r" x = some rx →
          rx.TotalCodeLines < r.TotalCodeLines) ∧
        (∀ x ∈ post, ∀ rx, reportOf sampleReports "/r" x = some rx →
          rx.TotalCodeLines ≤ r.TotalCodeLines) ∧
        0 < r.TotalCodeLines ∧
        (⟨140, 100, "P", "alpha"⟩ : Summary).maxTotalCodeLines = r.TotalCodeLines ∧
        (Split (TrimSuffix f.Name ".json") '_')[1]? =
          some (⟨140, 100, "P", "alpha"⟩ : Summary).maxProject ∧
        (Split (TrimSuffix f.Name ".json") '_')[2]? =
          some (⟨140, 100, "P", "alpha"⟩ : Summary).maxRepo :=
  ⟨(main_maxTotalCodeLines sampleReports "/r" sampleFiles).1 (by decide),
    by decide,
    ((main_maxTotalCodeLines sampleReports "/r" sampleFiles).2 ⟨140, 100, "P", "alpha"⟩
      (by decide)).2
      ⟨⟨"Result_P_alpha_main.json", false⟩, by decide, ⟨3, 120, 10, 10, 100, []⟩, by decide,
        by decide⟩⟩

end Main

end Gcloc

namespace Gcloc

/-! ## The summary of an analysis -/

namespace Getazure

open Strings

theorem findLargestRepository_loop_total (importantBranches : List ProjectBranch) :
    ∀ (largestRepoBranch largesRepo : String) (largestRepoSize totalSize z : Int),
      totalSize = wrapInt z →
      (findLargestRepository_loop importantBranches largestRepoBranch largesRepo
        largestRepoSize totalSize).2.2 =
        wrapInt (z + (importantBranches.map ProjectBranch.LargestSize).sum) := by
  induction importantBranches with
  | nil => intro b r sz t z hz; simpa [findLargestRepository_loop] using hz
  | cons branch rest ih =>
    intro b r sz t z hz
    unfold findLargestRepository_loop
    simp only
    rw [ih _ _ _ _ (z + branch.LargestSize) (by rw [hz, Main.wrapInt_add_left])]
    simp [add_assoc]

theorem findLargestRepository_loop_largest (importantBranches : List ProjectBranch) :
    ∀ (largestRepoBranch largesRepo : String) (largestRepoSize totalSize : Int),
      ((∀ x ∈ importantBranches, x.LargestSize ≤ largestRepoSize) →
        (findLargestRepository_loop importantBranches largestRepoBranch largesRepo
            largestRepoSize totalSize).1 = largestRepoBranch ∧
          (findLargestRepository_loop importantBranches largestRepoBranch largesRepo
            largestRepoSize totalSize).2.1 = largesRepo) ∧
      ((∃ x ∈ importantBranches, largestRepoSize < x.LargestSize) →
        ∃ pre b post, importantBranches = pre ++ b :: post ∧
          (∀ x ∈ pre, x.LargestSize < b.LargestSize) ∧ largestRepoSize < b.LargestSize ∧
          (∀ x ∈ post, x.LargestSize ≤ b.LargestSize) ∧
          (findLargestRepository_loop importantBranches largestRepoBranch largesRepo
            largestRepoSize totalSize).1 = b.MainBranch ∧
          (findLargestRepository_loop importantBranches largestRepoBranch largesRepo
            largestRepoSize totalSize).2.1 = b.RepoSlug) := by
  induction importantBranches with
  | nil =>
    intro lb lr sz t
    exact ⟨fun _ => ⟨rfl, rfl⟩, fun ⟨x, hx, _⟩ => absurd hx (List.not_mem_nil x)⟩
  | cons branch rest ih =>
    intro lb lr sz t
    unfold findLargestRepository_loop
    simp only [gt_iff_lt, decide_eq_true_eq]
    by_cases hgt : sz < branch.LargestSize
    · simp only [hgt, if_true]
      obtain ⟨ihall, ihex⟩ := ih branch.MainBranch branch.RepoSlug branch.LargestSize
        (wrapInt (t + branch.LargestSize))
      constructor
      · intro hall
        have := hall branch (List.mem_cons_self branch rest)
        omega
      · intro _
        by_cases hbig : ∃ x ∈ rest, branch.LargestSize < x.LargestSize
        · obtain ⟨pre, b, post, hsplit, hpre, hb, hpost, h1, h2⟩ := ihex hbig
          refine ⟨branch :: pre, b, post, by rw [hsplit]; rfl, ?_, by omega, hpost, h1, h2⟩
          intro x hx
          rcases List.mem_cons.mp hx with rfl | hx
          · exact hb
          · exact hpre x hx
        · have hle : ∀ x ∈ rest, x.LargestSize ≤ branch.LargestSize := by
            intro x hx
            by_contra hcon
            exact hbig ⟨x, hx, lt_of_not_le hcon⟩
          obtain ⟨e1, e2⟩ := ihall hle
          exact ⟨[], branch, rest, rfl, fun x hx => absurd hx (List.not_mem_nil x), hgt, hle,
            e1, e2⟩
    · simp only [hgt, if_false]
      obtain ⟨ihall, ihex⟩ := ih lb lr sz (wrapInt (t + branch.LargestSize))
      constructor
      · intro hall
        exact ihall fun x hx => hall x (List.mem_cons_of_mem branch hx)
      · rintro ⟨x, hx, hlt⟩
        have hx2 : x ∈ rest := by
          rcases List.mem_cons.mp hx with rfl | hx
          · exact absurd hlt hgt
          · exact hx
        obtain ⟨pre, b, post, hsplit, hpre, hb, hpost, h1, h2⟩ := ihex ⟨x, hx2, hlt⟩
        refine ⟨branch :: pre, b, post, by rw [hsplit]; rfl, ?_, hb, hpost, h1, h2⟩
        intro y hy
        rcases List.mem_cons.mp hy with rfl | hy
        · omega
        · exact hpre y hy

/-- C17: `findLargestRepository` leaves in `*totalSize`, an `int64`, its value
on entry plus the sum of `LargestSize` over all the entries, in the arithmetic
of `int64`; it returns two empty strings when no entry has a positive
`LargestSize`, and otherwise the `MainBranch` and the `RepoSlug` of the first
entry whose `LargestSize` is the greatest of the list. -/
theorem findLargestRepository_largest (importantBranches : List ProjectBranch)
    (totalSize : Int) (hsize : wrapInt totalSize = totalSize) :
    (findLargestRepository importantBranches totalSize).2.2 =
        wrapInt (totalSize + (importantBranches.map ProjectBranch.LargestSize).sum) ∧
      ((∀ x ∈ importantBranches, x.LargestSize ≤ 0) →
        (findLargestRepository importantBranches totalSize).1 = "" ∧
          (findLargestRepository importantBranches totalSize).2.1 = "") ∧
      ((∃ x ∈ importantBranches, 0 < x.LargestSize) →
        ∃ pre b post, importantBranches = pre ++ b :: post ∧
          (∀ x ∈ pre, x.LargestSize < b.LargestSize) ∧
          (∀ x ∈ post, x.LargestSize ≤ b.LargestSize) ∧
          (findLargestRepository importantBranches totalSize).1 = b.MainBranch ∧
          (findLargestRepository importantBranches totalSize).2.1 = b.RepoSlug) := by
  unfold findLargestRepository
  obtain ⟨hall, hex⟩ := findLargestRepository_loop_largest importantBranches "" "" 0 totalSize
  refine ⟨findLargestRepository_loop_total importantBranches "" "" 0 totalSize totalSize
    hsize.symm, hall, ?_⟩
  intro h
  obtain ⟨pre, b, post, hsplit, hpre, _, hpost, h1, h2⟩ := hex h
  exact ⟨pre, b, post, hsplit, hpre, hpost, h1, h2⟩

/-- C17 on `sampleBranches`, whose sizes are 7, 30 and 30, with 5 in
`*totalSize`: the result is the branch `develop` of the repository `app`, and
`*totalSize` becomes 72. -/
theorem findLargestRepository_largest_witness :
    findLargestRepository sampleBranches 5 = ("develop", "app", 72) ∧
      (findLargestRepository sampleBranches 5).2.2 =
        wrapInt (5 + (sampleBranches.map ProjectBranch.LargestSize).sum) :=
  ⟨by decide, (findLargestRepository_largest sampleBranches 5 (by decide)).1⟩

/-- C18: `getFileNameIfExists` returns `0` when `os.Stat` fails on the path,
whatever the error, and the path itself when it succeeds; and
`loadExclusionFileOrCreateNew` returns for `0`, with a nil error, a list under
which no project and no repository is excluded. -/
theorem getFileNameIfExists_then_empty_list (env : Main.StatEnv) (fs : Files)
    (filePath : String) :
    (∀ err, env.Stat filePath = some err → (Main.getFileNameIfExists env filePath).1 = "0") ∧
      (env.Stat filePath = none → (Main.getFileNameIfExists env filePath).1 = filePath) ∧
      ∃ list : ExclusionList, loadExclusionFileOrCreateNew fs "0" = (some list, none) ∧
        ∀ projectKey repoKey : String, isProjectExcluded list projectKey = false ∧
          isRepoExcluded list projectKey repoKey = false := by
  refine ⟨?_, ?_, ⟨[], []⟩, ?_, ?_⟩
  · intro err h
    unfold Main.getFileNameIfExists
    rw [h]
    simp only
    split <;> rfl
  · intro h
    unfold Main.getFileNameIfExists
    rw [h]
  · simp [loadExclusionFileOrCreateNew]
  · intro p r
    exact ⟨rfl, rfl⟩

/-- C18 on `sampleStat`: `.locked` cannot be examined, `missing` does not
exist, and `.exclude` exists. -/
theorem getFileNameIfExists_then_empty_list_witness :
    (Main.getFileNameIfExists Main.sampleStat ".locked").1 = "0" ∧
      (Main.getFileNameIfExists Main.sampleStat "missing").1 = "0" ∧
      (Main.getFileNameIfExists Main.sampleStat ".exclude").1 = ".exclude" :=
  ⟨(getFileNameIfExists_then_empty_list Main.sampleStat sampleExclusions ".locked").1
      "stat .locked: permission denied" (by decide),
    (getFileNameIfExists_then_empty_list Main.sampleStat sampleExclusions "missing").1
      "no such file or directory" (by decide),
    (getFileNameIfExists_then_empty_list Main.sampleStat sampleExclusions ".exclude").2.1
      (by decide)⟩

theorem getRepoAnalyse_loop_emptyRepos (fuel : Nat) (since : Int → String)
    (Errorf : String → Error) (params : ParamsProjectAzure) (gitClient : GitClient)
    (projects : List TeamProjectReference) :
    ∀ (vars : RepoAnalyseVars) (res : RepoAnalyse),
      getRepoAnalyse_loop fuel since Errorf params gitClient projects vars = some res →
      res.err = none → res.emptyRepos = vars.emptyRepos := by
  induction projects with
  | nil =>
    intro vars res h _
    simp only [getRepoAnalyse_loop, Option.some.injEq] at h
    subst h
    rfl
  | cons project rest ih =>
    intro vars res h herr
    unfold getRepoAnalyse_loop at h
    simp only at h
    cases hl : (listReposForProject params project.Name gitClient).err with
    | some err =>
      simp only [hl] at h
      split at h
      · exact ih vars res h herr
      · simp only [Option.some.injEq] at h
        subst h
        cases herr
    | none =>
      simp only [hl] at h
      split at h
      · cases h
      · have := ih _ res h herr
        exact this

set_option maxRecDepth 100000 in
/-- C14 (the code departs from the claim): in the project `Alpha` of
`sampleGitClient`, `listReposForProject` finds one empty repository, and
`getRepoAnalyse` succeeds and returns 0 as the number of empty repositories. -/
theorem getRepoAnalyse_emptyRepos_lost :
    listReposForProject sampleParams "Alpha" sampleGitClient =
        ⟨0, 1, 1, [⟨"id-app", "app", "refs/heads/dev", 50⟩], none, ["id-app", "id-void"]⟩ ∧
      getRepoAnalyse 3 (fun _ => "2024-01-01T00:00:00Z") plainErrorf sampleParams
          sampleGitClient =
        some ⟨[⟨"org", "Alpha", "app", "main", 0⟩], 0, 1, 3, 1, 0, none⟩ := by
  decide

set_option maxRecDepth 100000 in
/-- C15 (the code departs from the claim): in the project `Alpha` of
`sampleGitClient`, where one repository is excluded, `getRepoAnalyse` succeeds
and returns one entry for analysis, and the number that `printSummary` prints as
the total of the repositories that will be analyzed is 0. -/
theorem printSummary_analyzed_differs :
    (getRepoAnalyse 3 (fun _ => "2024-01-01T00:00:00Z") plainErrorf sampleParams
        sampleGitClient).map
        (fun analysed => (analysed.err, analysed.importantBranches.length,
          printSummary_analyzed (GetRepoAzureList_stats analysed),
          printSummary "org" (GetRepoAzureList_stats analysed))) =
      some (none, 1, 0,
        ["\n✅ The largest Repository is <> in the organization <org> with the branch <> \n",
         "\r✅ Total Repositories that will be analyzed: 0 - Find empty : 0 - Excluded : 1" ++
           " - Archived : 0\n",
         "\r✅ Total Branches that will be analyzed: 3\n"]) := by
  decide

end Getazure

end Gcloc
